import Mathlib

/-!
Verification of the strictjson package: a strict JSON decoder for Go that
enforces case-sensitive matching between JSON keys and struct field names.

The development shallowly embeds the package's three components:
the field map builder (buildStructFields, getStructFields), the strict
walker (Unmarshal, unmarshalValue, unmarshalStruct, unmarshalSlice,
unmarshalMap, getFieldByIndex/allocatePointers) and the diagnostics
(findSuggestion, levenshteinDistance, the error constructors).

Modelling conventions:
* JSON input is an already-parsed value tree (the external parser is a
  given collaborator).  A JSON object is an association list in source
  order; Go map iteration order is unspecified, the model iterates in
  insertion order.
* Go reflection values are modelled by the untyped tree GoValue; in-place
  mutation is modelled by returning the (possibly partially) updated value
  alongside the optional error, exactly as the mutations persist in Go.
* A Go type carries whether it declares an UnmarshalJSON method and on
  which receiver; method-set rules (T has value-receiver methods, *T has
  value- and pointer-receiver methods, **T has none) are reproduced in
  implementsUnmarshaler.
* The process-wide descriptor cache is read-through and keyed by type
  identity, so getStructFields is modelled as its pure equivalent.
-/

namespace StrictJson

/-- Receiver kind of the UnmarshalJSON method a Go type may declare:
none, value receiver, or pointer receiver. -/
inductive Recv where
  | noRecv
  | valueRecv
  | ptrRecv
deriving DecidableEq

/-- Go types as the decoder inspects them through reflection.  A struct
field is the tuple (Name, json tag, Anonymous, IsExported, type). -/
inductive GoType where
  | prim (name : String)
  | struct_ (name : String) (recv : Recv) (fields : List (String × String × Bool × Bool × GoType))
  | slice (elem : GoType)
  | map_ (elem : GoType)
  | ptr (elem : GoType)

/-- A struct field: (Name, json tag, Anonymous, IsExported, type). -/
abbrev GoField := String × String × Bool × Bool × GoType

/-- The declared Go name of a field. -/
def GoField.fname (f : GoField) : String := f.1

/-- The json struct tag of a field. -/
def GoField.ftag (f : GoField) : String := f.2.1

/-- Whether the field is anonymous (embedded). -/
def GoField.fanon (f : GoField) : Bool := f.2.2.1

/-- Whether the field is exported. -/
def GoField.fexported (f : GoField) : Bool := f.2.2.2.1

/-- The field's type. -/
def GoField.ftype (f : GoField) : GoType := f.2.2.2.2

/-- A parsed JSON value: the raw value tree handed over by the external
parser.  Objects keep their entries in source order. -/
inductive Raw where
  | null
  | rbool (b : Bool)
  | rnum (n : Int)
  | rstr (s : String)
  | arr (elems : List Raw)
  | obj (entries : List (String × Raw))

/-- Whether the raw value is the literal null token. -/
def Raw.isNull : Raw → Bool
  | .null => true
  | _ => false

/-- A Go value as mutated by the decoder.  vPrim none is the zero value of
a scalar; a custom-unmarshaler type records the raw value it received. -/
inductive GoValue where
  | vPrim (content : Option Raw)
  | vStruct (fields : List GoValue)
  | vSlice (elems : Option (List GoValue))
  | vMap (entries : Option (List (String × GoValue)))
  | vPtr (p : Option GoValue)
  | vCustom (received : Raw)

/-- The structured errors of errors.go: non-pointer target, unknown or
mis-cased field (with optional suggestion), field conflict, and the
un-wrapped error category propagated from encoding/json. -/
inductive DErr where
  | nonPointer
  | unknownField (fieldName : String) (suggestion : String)
  | fieldConflict (fieldName : String)
  | jsonError
deriving DecidableEq

/-- Decoder configuration: the two independent switches. -/
structure Decoder where
  DisallowUnknownFields : Bool
  SuggestClosest : Bool
deriving DecidableEq

/-- NewDecoder applies the option list to the defaults
(DisallowUnknownFields = true, SuggestClosest = false). -/
def NewDecoder (opts : List (Decoder → Decoder)) : Decoder :=
  opts.foldl (fun d opt => opt d) ⟨true, false⟩

/-- Option setting DisallowUnknownFields. -/
def WithDisallowUnknownFields (disallow : Bool) : Decoder → Decoder :=
  fun d => { d with DisallowUnknownFields := disallow }

/-- Option setting SuggestClosest. -/
def WithSuggestClosest (suggest : Bool) : Decoder → Decoder :=
  fun d => { d with SuggestClosest := suggest }

/-- Field location: the external key name plus the index path from the
record root to the field's storage slot (fieldInfo in the source). -/
structure FieldInfo where
  jsonName : String
  fieldIndex : List Nat
deriving DecidableEq

/-- The record type descriptor (structFields in the source): the
resolvable mapping, the ordered all-names list, the conflict marker. -/
structure StructFields where
  fields : List (String × FieldInfo)
  allNames : List String
  conflict : String

/-- The characters of a json tag before its first comma. -/
def tagName : List Char → List Char
  | [] => []
  | c :: cs => if c = ',' then [] else c :: tagName cs

/-- The characters of a json tag after its first comma. -/
def tagOpts : List Char → List Char
  | [] => []
  | c :: cs => if c = ',' then cs else tagOpts cs

/-- parseTag splits a json tag at the first comma into name and options
(strings.Index and slicing in the source). -/
def parseTag (tag : String) : String × String :=
  (String.mk (tagName tag.data), String.mk (tagOpts tag.data))

/-- The external name a non-embedded field resolves to: the tag name if
non-empty, else the Go field name. -/
def goFieldName (f : GoField) : String :=
  let name := (parseTag f.ftag).1
  if name = "" then f.fname else name

/-- Strips pointer indirections off a type. -/
def stripPtr : GoType → GoType
  | .ptr t => stripPtr t
  | t => t

/-- Whether a type's method set contains UnmarshalJSON, following Go's
method-set rules: a struct T implements it iff the method has a value
receiver; *T implements it iff the method exists with either receiver;
a pointer-to-pointer type never implements it. -/
def implementsUnmarshaler : GoType → Bool
  | .ptr (.struct_ _ recv _) => recv != Recv.noRecv
  | .struct_ _ recv _ => recv == Recv.valueRecv
  | _ => false

/-- containsStruct: whether a type reaches, through pointers, slices and
maps, a struct that does not opt out via a custom unmarshaler. -/
def containsStruct : GoType → Bool
  | .ptr t => containsStruct t
  | .struct_ n recv fs => !implementsUnmarshaler (.ptr (.struct_ n recv fs))
  | .slice t => containsStruct t
  | .map_ t => containsStruct t
  | .prim _ => false

/-- One entry of the breadth-first scan queue (fieldScan in the source). -/
structure FieldScan where
  typ : GoType
  index : List Nat

/-- The mutable state of buildStructFields: the descriptor under
construction, the visited-type set (keyed by struct name, standing in for
reflect.Type identity), the names found at the current level, and the
next level's queue. -/
structure BuildState where
  fields : List (String × FieldInfo)
  allNames : List String
  conflict : String
  visited : List String
  found : List String
  next : List FieldScan

/-- Removes the entry of a key from the resolvable mapping (Go delete). -/
def assocErase (k : String) (l : List (String × FieldInfo)) : List (String × FieldInfo) :=
  l.filter (fun p => p.1 != k)

/-- Processing of one struct field at one level of the scan, mirroring the
inner loop of buildStructFields: anonymous fields queue their type for the
next level; unexported and tag "-" fields are skipped; a name already
found at this level is a conflict (the existing mapping is deleted); a
name claimed at a shallower level is shadowed; otherwise the field is
recorded. -/
def processField (index : List Nat) (st : BuildState) (p : Nat × GoField) : BuildState :=
  let i := p.1
  let f := p.2
  if f.fanon then
    { st with next := st.next ++ [⟨f.ftype, index ++ [i]⟩] }
  else if !f.fexported then st
  else if f.ftag = "-" then st
  else
    let name := goFieldName f
    if st.found.contains name then
      { st with fields := assocErase name st.fields, conflict := name }
    else if (st.fields.lookup name).isSome then st
    else
      { st with fields := st.fields ++ [(name, ⟨name, index ++ [i]⟩)],
                found := st.found ++ [name] }

/-- Processing of one scan-queue entry: strip pointers, skip non-structs
and already-visited types, else mark visited and process every field. -/
def processScan (st : BuildState) (scan : FieldScan) : BuildState :=
  match stripPtr scan.typ with
  | .struct_ n _ fs =>
      if st.visited.contains n then st
      else fs.enum.foldl (processField scan.index) { st with visited := st.visited ++ [n] }
  | _ => st

/-- End of one level: every name found at this level that survived in the
resolvable mapping is appended to the all-names list. -/
def endLevel (st : BuildState) : BuildState :=
  { st with
    allNames := st.allNames ++ st.found.filter (fun n => (st.fields.lookup n).isSome),
    found := [] }

mutual

/-- Structural size of a Go type, the termination measure of the
breadth-first traversal. -/
def goTypeSize : GoType → Nat
  | .prim _ => 1
  | .struct_ _ _ fs => 1 + goFieldsSize fs
  | .slice t => 1 + goTypeSize t
  | .map_ t => 1 + goTypeSize t
  | .ptr t => 1 + goTypeSize t

/-- Structural size of a struct field list. -/
def goFieldsSize : List (String × String × Bool × Bool × GoType) → Nat
  | [] => 0
  | (_, _, _, _, t) :: fs => 1 + goTypeSize t + goFieldsSize fs

end

theorem goTypeSize_pos : ∀ t : GoType, 1 ≤ goTypeSize t
  | .prim _ => by rw [goTypeSize]
  | .struct_ _ _ _ => by rw [goTypeSize]; omega
  | .slice _ => by rw [goTypeSize]; omega
  | .map_ _ => by rw [goTypeSize]; omega
  | .ptr _ => by rw [goTypeSize]; omega

theorem goTypeSize_stripPtr_le : ∀ t : GoType, goTypeSize (stripPtr t) ≤ goTypeSize t
  | .ptr te => by
      rw [stripPtr]
      have h := goTypeSize_stripPtr_le te
      have h2 : goTypeSize (GoType.ptr te) = 1 + goTypeSize te := by rw [goTypeSize]
      omega
  | .prim n => by simp [stripPtr]
  | .struct_ n r fs => by simp [stripPtr]
  | .slice te => by simp [stripPtr]
  | .map_ te => by simp [stripPtr]

/-- Weight of a scan-queue entry, for termination of the breadth-first
traversal. -/
def scanWeight (s : FieldScan) : Nat := goTypeSize s.typ

/-- Weight of a whole level of the scan queue. -/
def levelWeight (l : List FieldScan) : Nat := (l.map scanWeight).sum

theorem processField_next_eq (index : List Nat) (st : BuildState) (p : Nat × GoField) :
    (processField index st p).next = st.next ∨
    (processField index st p).next = st.next ++ [⟨p.2.ftype, index ++ [p.1]⟩] := by
  unfold processField
  dsimp only
  repeat' split
  all_goals first
    | exact Or.inr rfl
    | exact Or.inl rfl

theorem processField_next_bound (index : List Nat) (st : BuildState) (p : Nat × GoField) :
    levelWeight (processField index st p).next ≤
      levelWeight st.next + goTypeSize p.2.ftype := by
  rcases processField_next_eq index st p with h | h <;> rw [h]
  · omega
  · simp [levelWeight, scanWeight, List.sum_append]

/-- Total field-type weight of an enumerated field list. -/
def enumFieldWeight (l : List (Nat × GoField)) : Nat :=
  (l.map (fun p => goTypeSize p.2.ftype)).sum

theorem foldl_processField_next_bound (index : List Nat) (l : List (Nat × GoField))
    (st : BuildState) :
    levelWeight ((l.foldl (processField index) st)).next ≤
      levelWeight st.next + enumFieldWeight l := by
  induction l generalizing st with
  | nil => simp [enumFieldWeight]
  | cons p rest ih =>
      have h1 := processField_next_bound index st p
      have h2 := ih (processField index st p)
      simp only [List.foldl_cons, enumFieldWeight, List.map_cons, List.sum_cons] at *
      omega

theorem enumFrom_fieldWeight_le : ∀ (fs : List GoField) (k : Nat),
    enumFieldWeight (fs.enumFrom k) ≤ goFieldsSize fs
  | [], k => by simp [enumFieldWeight, List.enumFrom, goFieldsSize]
  | f :: fs, k => by
      have h := enumFrom_fieldWeight_le fs (k + 1)
      obtain ⟨a, b, c, d, t⟩ := f
      simp only [enumFieldWeight, List.enumFrom, List.map_cons, List.sum_cons,
        goFieldsSize, GoField.ftype] at *
      omega

theorem processScan_next_lt (st : BuildState) (scan : FieldScan) :
    levelWeight (processScan st scan).next < levelWeight st.next + goTypeSize scan.typ := by
  have hstrip := goTypeSize_stripPtr_le scan.typ
  have hpos := goTypeSize_pos (stripPtr scan.typ)
  unfold processScan
  rcases h : stripPtr scan.typ with n | ⟨n, r, fs⟩ | te | te | te <;> rw [h] at hstrip hpos
  case prim => simp only; omega
  case struct_ =>
      simp only
      split
      · omega
      · have h1 := foldl_processField_next_bound scan.index fs.enum
          { st with visited := st.visited ++ [n] }
        have h2 : enumFieldWeight fs.enum ≤ goFieldsSize fs := enumFrom_fieldWeight_le fs 0
        rw [goTypeSize] at hstrip
        simp only at h1
        omega
  case slice => simp only; omega
  case map_ => simp only; omega
  case ptr => simp only; omega

theorem foldl_processScan_next_lt : ∀ (l : List FieldScan) (st : BuildState), l ≠ [] →
    levelWeight ((l.foldl processScan st)).next < levelWeight st.next + levelWeight l
  | [], _, h => absurd rfl h
  | s :: rest, st, _ => by
      rcases rest with _ | ⟨s2, rest2⟩
      · have h1 := processScan_next_lt st s
        simp only [List.foldl_cons, List.foldl_nil]
        simp only [levelWeight, scanWeight, List.map_cons, List.map_nil,
          List.sum_cons, List.sum_nil] at *
        omega
      · have h1 := processScan_next_lt st s
        have h2 := foldl_processScan_next_lt (s2 :: rest2) (processScan st s) (by simp)
        simp only [List.foldl_cons] at *
        simp only [levelWeight, scanWeight, List.map_cons, List.sum_cons] at *
        omega

/-- The level-by-level loop of buildStructFields. -/
def bfsLoop (st : BuildState) (current : List FieldScan) : BuildState :=
  match h : current with
  | [] => st
  | _ :: _ =>
      let st1 := current.foldl processScan { st with found := [], next := [] }
      bfsLoop { endLevel st1 with next := [] } st1.next
termination_by levelWeight current
decreasing_by
  subst h
  rename_i hd tl
  have h1 := foldl_processScan_next_lt (hd :: tl) { st with found := [], next := [] } (by simp)
  simp only [levelWeight, scanWeight, List.map_nil, List.sum_nil] at h1 ⊢
  omega

/-- buildStructFields: breadth-first field discovery, exactly as in the
source, starting from the type itself at level zero. -/
def buildStructFields (t : GoType) : StructFields :=
  let st := bfsLoop ⟨[], [], "", [], [], []⟩ [⟨t, []⟩]
  ⟨st.fields, st.allNames, st.conflict⟩

/-- The state after scanning only the root struct's own (level-zero)
fields, used to characterise descriptors of records without embedding. -/
def level0St (rname : String) (flds : List GoField) : BuildState :=
  (flds.enumFrom 0).foldl (processField []) ⟨[], [], "", [rname], [], []⟩

/-- getStructFields: the cached descriptor lookup.  The process-wide
cache is read-through and keyed by type identity, so it is modelled by
its pure equivalent; a conflicted descriptor yields the conflict error. -/
def getStructFields (t : GoType) : Except DErr StructFields :=
  let sf := buildStructFields t
  if sf.conflict ≠ "" then .error (.fieldConflict sf.conflict) else .ok sf

mutual

/-- The zero value of a Go type. -/
def zeroValue : GoType → GoValue
  | .prim _ => .vPrim none
  | .struct_ _ _ fs => .vStruct (zeroFields fs)
  | .slice _ => .vSlice none
  | .map_ _ => .vMap none
  | .ptr _ => .vPtr none

/-- Zero values of a struct's fields, in declaration order. -/
def zeroFields : List (String × String × Bool × Bool × GoType) → List GoValue
  | [] => []
  | (_, _, _, _, t) :: fs => zeroValue t :: zeroFields fs

end

mutual

/-- Structural size of a raw value, the walker's termination measure. -/
def rawSize : Raw → Nat
  | .null => 1
  | .rbool _ => 1
  | .rnum _ => 1
  | .rstr _ => 1
  | .arr es => 1 + rawListSize es
  | .obj es => 1 + rawEntriesSize es

/-- Structural size of a raw array body. -/
def rawListSize : List Raw → Nat
  | [] => 0
  | r :: rs => 1 + rawSize r + rawListSize rs

/-- Structural size of a raw object body. -/
def rawEntriesSize : List (String × Raw) → Nat
  | [] => 0
  | (_, r) :: rs => 1 + rawSize r + rawEntriesSize rs

end

/-- minOfThree from the source. -/
def minOfThree (a b c : Nat) : Nat :=
  if a < b then
    if a < c then a else c
  else
    if b < c then b else c

/-- The inner loop of levenshteinDistance: computes the entries
curr(j) for j = 1..len(s2) of the next dynamic-programming row, given the
remaining characters of s2, the previous row from position j-1 on, and
the entry curr(j-1) just computed. -/
def levInner (c : Char) : List Char → List Nat → Nat → List Nat
  | b :: bs, pj1 :: ptail, cj1 =>
      let cost := if c = b then 0 else 1
      let cj := minOfThree (ptail.headD 0 + 1) (cj1 + 1) (pj1 + cost)
      cj :: levInner c bs ptail cj
  | _, _, _ => []

/-- The outer loop of levenshteinDistance: one dynamic-programming row
per character of s1; returns the last entry of the final row. -/
def levOuter : List Char → List Char → List Nat → Nat → Nat
  | [], _, prev, _ => prev.getLastD 0
  | a :: rest, s2, prev, i => levOuter rest s2 (i :: levInner a s2 prev i) (i + 1)

/-- levenshteinDistance: the two-row dynamic program of the source. -/
def levenshteinDistance (s1 s2 : String) : Nat :=
  if s1.length = 0 then s2.length
  else if s2.length = 0 then s1.length
  else levOuter s1.data s2.data (List.range (s2.length + 1)) 1

/-- strings.ToLower: lower-cases every character. -/
def goToLower (s : String) : String := String.mk (s.data.map Char.toLower)

/-- findSuggestion: first pass looks for a case-insensitive exact match,
second pass for the first known name within edit distance 2. -/
def findSuggestion (unknown : String) (knownNames : List String) : String :=
  let unknownLower := goToLower unknown
  match knownNames.find? (fun name => goToLower name == unknownLower) with
  | some name => name
  | none =>
      match knownNames.find? (fun name => levenshteinDistance unknown name ≤ 2) with
      | some name => name
      | none => ""

/-- Reads the field slot i of a struct value (reflect Value.Field). -/
def structSlotGet (v : GoValue) (i : Nat) (te : GoType) : GoValue :=
  match v with
  | .vStruct vs => vs.getD i (zeroValue te)
  | _ => zeroValue te

/-- Writes the field slot i of a struct value. -/
def structSlotSet (v : GoValue) (i : Nat) (w : GoValue) : GoValue :=
  match v with
  | .vStruct vs => .vStruct (vs.set i w)
  | _ => v

/-- The type of field i of a field list. -/
def fieldTypeAt (fs : List GoField) (i : Nat) : GoType :=
  match fs.get? i with
  | some f => f.ftype
  | none => .prim ""

/-- allocatePointers: strips the pointer chain of the target, allocating a
fresh zero value wherever a nil pointer is traversed, and returns the
value the decoder then works on. -/
def allocDescend : GoType → GoValue → GoValue
  | .ptr te, v =>
      (match v with
       | .vPtr (some u) => allocDescend te u
       | _ => allocDescend te (zeroValue te))
  | _, v => v

/-- Wraps a decoded value back into the pointer chain the target was
reached through (the in-place mutation through the allocated pointers). -/
def rewrapPtr : GoType → GoValue → GoValue
  | .ptr te, u => .vPtr (some (rewrapPtr te u))
  | _, u => u

/-- Compatibility of a raw scalar with a primitive Go type, the model of
the external fast-path decode of a non-container value. -/
def primCompat : String → Raw → Bool
  | "string", .rstr _ => true
  | "int", .rnum _ => true
  | "bool", .rbool _ => true
  | "any", _ => true
  | _, _ => false

/-- Modelled from the spec: the external primitive decoding raw bytes
directly into a concrete scalar value (the fast standard path on a
non-container type); on a type mismatch the target is left untouched and
the parser's error is propagated. -/
def decodePrimStep (data : Raw) (name : String) (v : GoValue) : GoValue × Option DErr :=
  if primCompat name data then (.vPrim (some data), none) else (v, some .jsonError)

/-- Whether a struct field takes part in the external decoder's key
matching: non-embedded, exported, not tagged "-". -/
def jsonMatchable (f : GoField) : Bool :=
  !f.fanon && f.fexported && f.ftag != "-"

/-- Modelled from the spec: the external decoder's field matching, which
prefers an exact key match and falls back to a case-insensitive one. -/
def jsonFieldIndex (fs : List GoField) (k : String) : Option Nat :=
  match fs.findIdx? (fun f => jsonMatchable f && goFieldName f == k) with
  | some i => some i
  | none => fs.findIdx? (fun f => jsonMatchable f && goToLower (goFieldName f) == goToLower k)

/-- Replaces or appends a key's entry in a map value's entry list. -/
def insertAssoc (m : List (String × GoValue)) (k : String) (w : GoValue) :
    List (String × GoValue) :=
  if (m.lookup k).isSome then m.map (fun p => if p.1 == k then (k, w) else p)
  else m ++ [(k, w)]

mutual

/-- Modelled from the spec: the external non-strict decode primitive
(encoding/json.Unmarshal), the given collaborator the source delegates to
on its fast standard path.  null leaves the target untouched; a type
whose pointer type declares a custom decode routine receives the raw
value verbatim; pointers are allocated and traversed; object keys are
matched to struct fields exactly, else case-insensitively, and unknown
keys are ignored; arrays and maps decode element by element; scalars use
the primitive decode. -/
def jsonUnmarshal (data : Raw) (t : GoType) (v : GoValue) : GoValue × Option DErr :=
  if data.isNull then (v, none)
  else if implementsUnmarshaler (.ptr t) then (.vCustom data, none)
  else
    match t with
    | .ptr te =>
        let inner := match v with
          | .vPtr (some u) => u
          | _ => zeroValue te
        let r := jsonUnmarshal data te inner
        (.vPtr (some r.1), r.2)
    | .struct_ _ _ fs =>
        (match data with
         | .obj entries => jsonFields fs entries v
         | _ => (v, some .jsonError))
    | .slice te =>
        (match data with
         | .arr elems =>
             let r := jsonElems te elems
             (match r.2 with
              | some e => (v, some e)
              | none => (.vSlice (some r.1), none))
         | _ => (v, some .jsonError))
    | .map_ te =>
        (match data with
         | .obj entries =>
             let m0 := match v with
               | .vMap (some m) => m
               | _ => ([] : List (String × GoValue))
             jsonEntries te entries m0
         | _ => (v, some .jsonError))
    | .prim p => decodePrimStep data p v
termination_by (rawSize data, goTypeSize t)
decreasing_by
  all_goals simp_wf
  all_goals simp only [rawSize, rawListSize, rawEntriesSize, goTypeSize]
  all_goals first
    | (apply Prod.Lex.right; omega)
    | (apply Prod.Lex.left; omega)

/-- The external decoder's object-into-struct loop. -/
def jsonFields (fs : List GoField) (entries : List (String × Raw)) (v : GoValue) :
    GoValue × Option DErr :=
  match entries with
  | [] => (v, none)
  | (k, rv) :: rest =>
      match jsonFieldIndex fs k with
      | none => jsonFields fs rest v
      | some i =>
          let r := jsonUnmarshal rv (fieldTypeAt fs i) (structSlotGet v i (fieldTypeAt fs i))
          match r.2 with
          | some e => (structSlotSet v i r.1, some e)
          | none => jsonFields fs rest (structSlotSet v i r.1)
termination_by (rawEntriesSize entries, 0)
decreasing_by
  all_goals simp_wf
  all_goals simp only [rawSize, rawListSize, rawEntriesSize, goTypeSize]
  all_goals first
    | (apply Prod.Lex.right; omega)
    | (apply Prod.Lex.left; omega)

/-- The external decoder's array loop. -/
def jsonElems (te : GoType) (elems : List Raw) : List GoValue × Option DErr :=
  match elems with
  | [] => ([], none)
  | rv :: rest =>
      let r := jsonUnmarshal rv te (zeroValue te)
      match r.2 with
      | some e => ([r.1], some e)
      | none =>
          let rr := jsonElems te rest
          (r.1 :: rr.1, rr.2)
termination_by (rawListSize elems, 0)
decreasing_by
  all_goals simp_wf
  all_goals simp only [rawSize, rawListSize, rawEntriesSize, goTypeSize]
  all_goals first
    | (apply Prod.Lex.right; omega)
    | (apply Prod.Lex.left; omega)

/-- The external decoder's object-into-map loop. -/
def jsonEntries (te : GoType) (entries : List (String × Raw)) (m : List (String × GoValue)) :
    GoValue × Option DErr :=
  match entries with
  | [] => (.vMap (some m), none)
  | (k, rv) :: rest =>
      let r := jsonUnmarshal rv te (zeroValue te)
      match r.2 with
      | some e => (.vMap (some m), some e)
      | none => jsonEntries te rest (insertAssoc m k r.1)
termination_by (rawEntriesSize entries, 0)
decreasing_by
  all_goals simp_wf
  all_goals simp only [rawSize, rawListSize, rawEntriesSize, goTypeSize]
  all_goals first
    | (apply Prod.Lex.right; omega)
    | (apply Prod.Lex.left; omega)

end

mutual

/-- unmarshalValue: the strict walker's per-value step.  A raw null
succeeds without touching the target; a target whose address type
implements json.Unmarshaler is delegated to verbatim (the target is
always addressable at the walker's call sites); otherwise pointers are
allocated and stripped and the walker dispatches on the resolved kind. -/
def unmarshalValue (d : Decoder) (data : Raw) (t : GoType) (v : GoValue) :
    GoValue × Option DErr :=
  if data.isNull then (v, none)
  else if implementsUnmarshaler (.ptr t) then (.vCustom data, none)
  else
    let vi := allocDescend t v
    let r :=
      match stripPtr t with
      | .struct_ n recv fs => unmarshalStruct d data (.struct_ n recv fs) vi
      | .slice te => unmarshalSlice d data (.slice te) vi
      | .map_ te => unmarshalMap d data (.map_ te) vi
      | .prim p => decodePrimStep data p vi
      | .ptr te => (vi, none)
    (rewrapPtr t r.1, r.2)
termination_by (rawSize data, 3, 0)
decreasing_by
  all_goals simp_wf
  all_goals simp [rawSize, rawListSize, rawEntriesSize, Prod.lex_def]
  all_goals omega

/-- unmarshalStruct: parse the raw value as an object, obtain the type's
descriptor (failing on a conflict), run the unknown-key check when
enabled, then decode each known key into its field slot. -/
def unmarshalStruct (d : Decoder) (data : Raw) (t : GoType) (v : GoValue) :
    GoValue × Option DErr :=
  match data with
  | .obj raw =>
      (match getStructFields t with
       | .error e => (v, some e)
       | .ok sf =>
          if d.DisallowUnknownFields then
            match raw.find? (fun p => (sf.fields.lookup p.1).isNone) with
            | some p =>
                let suggestion := if d.SuggestClosest then findSuggestion p.1 sf.allNames else ""
                (v, some (.unknownField p.1 suggestion))
            | none => decodeFields d t sf raw v
          else decodeFields d t sf raw v)
  | _ => (v, some .jsonError)
termination_by (rawSize data, 2, 0)
decreasing_by
  all_goals simp_wf
  all_goals simp [rawSize, rawListSize, rawEntriesSize, Prod.lex_def]
  all_goals omega

/-- The strict walker's field loop: for each raw key that resolves in the
descriptor, follow its index path and decode the sub-value in place,
stopping at the first error; unresolved keys are skipped. -/
def decodeFields (d : Decoder) (t : GoType) (sf : StructFields)
    (raw : List (String × Raw)) (v : GoValue) : GoValue × Option DErr :=
  match raw with
  | [] => (v, none)
  | (k, rv) :: rest =>
      match sf.fields.lookup k with
      | none => decodeFields d t sf rest v
      | some fi =>
          let r := setAtPath d rv t v fi.fieldIndex
          match r.2 with
          | some e => (r.1, some e)
          | none => decodeFields d t sf rest r.1
termination_by (rawEntriesSize raw, 1, 0)
decreasing_by
  all_goals simp_wf
  all_goals simp [rawSize, rawListSize, rawEntriesSize, Prod.lex_def]
  all_goals omega

/-- getFieldByIndex combined with the recursive decode and the in-place
write-back: walks the index path (dereferencing one pointer per step and
allocating a fresh zero value at a nil pointer), and at the end of the
path decodes the raw sub-value into the slot.  An index step that does
not land on a struct stops silently (the invalid-field guard), keeping
any allocation already made. -/
def setAtPath (d : Decoder) (rv : Raw) (t : GoType) (v : GoValue) (path : List Nat) :
    GoValue × Option DErr :=
  match path with
  | [] => unmarshalValue d rv t v
  | i :: rest =>
      match t with
      | .ptr te =>
          let inner := match v with
            | .vPtr (some u) => u
            | _ => zeroValue te
          (match te with
           | .struct_ _ _ fs =>
               (match fs.get? i with
                | some f =>
                    let slot := structSlotGet inner i (GoField.ftype f)
                    let r := setAtPath d rv (GoField.ftype f) slot rest
                    (.vPtr (some (structSlotSet inner i r.1)), r.2)
                | none => (.vPtr (some inner), none))
           | _ => (.vPtr (some inner), none))
      | .struct_ _ _ fs =>
          (match fs.get? i with
           | some f =>
               let slot := structSlotGet v i (GoField.ftype f)
               let r := setAtPath d rv (GoField.ftype f) slot rest
               (structSlotSet v i r.1, r.2)
           | none => (v, none))
      | _ => (v, none)
termination_by (rawSize rv, 4, path.length)
decreasing_by
  all_goals simp_wf
  all_goals simp [rawSize, rawListSize, rawEntriesSize, Prod.lex_def]
  all_goals omega

/-- unmarshalSlice: parse the raw value as an array; when the element
type contains no strictly-validated struct, delegate the whole value to
the fast standard path, else decode each element of a fresh slice in
order, discarding the slice on the first failing element. -/
def unmarshalSlice (d : Decoder) (data : Raw) (t : GoType) (v : GoValue) :
    GoValue × Option DErr :=
  match data with
  | .arr rawSlice =>
      (match t with
       | .slice elemType =>
           if !containsStruct elemType then jsonUnmarshal data t v
           else
             let r := decodeElems d elemType rawSlice
             (match r.2 with
              | some e => (v, some e)
              | none => (.vSlice (some r.1), none))
       | _ => (v, some .jsonError))
  | _ => (v, some .jsonError)
termination_by (rawSize data, 2, 0)
decreasing_by
  all_goals simp_wf
  all_goals simp [rawSize, rawListSize, rawEntriesSize, Prod.lex_def]
  all_goals omega

/-- The strict walker's element loop over a fresh slice. -/
def decodeElems (d : Decoder) (elemType : GoType) (raws : List Raw) :
    List GoValue × Option DErr :=
  match raws with
  | [] => ([], none)
  | rv :: rest =>
      let r := unmarshalValue d rv elemType (zeroValue elemType)
      match r.2 with
      | some e => ([r.1], some e)
      | none =>
          let rr := decodeElems d elemType rest
          (r.1 :: rr.1, rr.2)
termination_by (rawListSize raws, 1, 0)
decreasing_by
  all_goals simp_wf
  all_goals simp [rawSize, rawListSize, rawEntriesSize, Prod.lex_def]
  all_goals omega

/-- unmarshalMap: parse the raw value as an object; when the value type
contains no strictly-validated struct, delegate the whole value to the
fast standard path, else decode every entry into a freshly zeroed value
and insert it, keeping already-inserted entries on failure. -/
def unmarshalMap (d : Decoder) (data : Raw) (t : GoType) (v : GoValue) :
    GoValue × Option DErr :=
  match data with
  | .obj rawMap =>
      (match t with
       | .map_ valueType =>
           if !containsStruct valueType then jsonUnmarshal data t v
           else
             let m0 := match v with
               | .vMap (some m) => m
               | _ => ([] : List (String × GoValue))
             decodeMapEntries d valueType rawMap m0
       | _ => (v, some .jsonError))
  | _ => (v, some .jsonError)
termination_by (rawSize data, 2, 0)
decreasing_by
  all_goals simp_wf
  all_goals simp [rawSize, rawListSize, rawEntriesSize, Prod.lex_def]
  all_goals omega

/-- The strict walker's entry loop over a map value. -/
def decodeMapEntries (d : Decoder) (valueType : GoType)
    (raws : List (String × Raw)) (m : List (String × GoValue)) : GoValue × Option DErr :=
  match raws with
  | [] => (.vMap (some m), none)
  | (k, rv) :: rest =>
      let r := unmarshalValue d rv valueType (zeroValue valueType)
      match r.2 with
      | some e => (.vMap (some m), some e)
      | none => decodeMapEntries d valueType rest (insertAssoc m k r.1)
termination_by (rawEntriesSize raws, 1, 0)
decreasing_by
  all_goals simp_wf
  all_goals simp [rawSize, rawListSize, rawEntriesSize, Prod.lex_def]
  all_goals omega

end

/-- Decoder.Unmarshal: the entry point.  The target must be a non-nil
pointer; the decode then runs on the pointed-to value, mutating it in
place. -/
def Decoder.Unmarshal (d : Decoder) (data : Raw) (t : GoType) (v : GoValue) :
    GoValue × Option DErr :=
  match t, v with
  | .ptr te, .vPtr (some inner) =>
      let r := unmarshalValue d data te inner
      (.vPtr (some r.1), r.2)
  | _, _ => (v, some .nonPointer)

/-- The package-level Unmarshal: a fresh default decoder. -/
def Unmarshal (data : Raw) (t : GoType) (v : GoValue) : GoValue × Option DErr :=
  (NewDecoder []).Unmarshal data t v

/-- The classic single-character-edit (Levenshtein) distance between the
length-i prefix of s and the length-j prefix of t: insertion, deletion
and substitution each cost 1 (the textbook prefix recurrence). -/
def editDist (s t : List Char) : Nat → Nat → Nat
  | 0, j => j
  | i + 1, 0 => i + 1
  | i + 1, j + 1 =>
      let cost := if s.getD i ' ' = t.getD j ' ' then 0 else 1
      min (editDist s t i j + cost) (min (editDist s t i (j + 1) + 1) (editDist s t (i + 1) j + 1))
termination_by i j => (i, j)

/-- One row of the edit-distance table, from column j on, indexed by the
remaining characters of t. -/
def rowOn (s t : List Char) (i : Nat) : Nat → List Char → List Nat
  | j, [] => [editDist s t i j]
  | j, _ :: ts => editDist s t i j :: rowOn s t i (j + 1) ts

/-- Modelled from the spec's words: the two-phase suggestion contract of
the diagnostics component — the first known name equal to the unknown key
ignoring case if one exists, else the first known name (in recorded
order) whose classic edit distance from the unknown key is at most 2,
else no suggestion. -/
def suggestSpec (unknown : String) (knownNames : List String) : String :=
  match knownNames.find? (fun name => goToLower name == goToLower unknown) with
  | some name => name
  | none =>
      match knownNames.find? (fun name =>
          editDist unknown.data name.data unknown.data.length name.data.length ≤ 2) with
      | some name => name
      | none => ""

/-- Whether a type contains no record type at all, at any nesting. -/
def structFree : GoType → Bool
  | .prim _ => true
  | .struct_ _ _ _ => false
  | .slice t => structFree t
  | .map_ t => structFree t
  | .ptr t => structFree t

/-- Go's embedding legality for a struct's field list: an embedded
(anonymous) member is declared as a named type or a pointer to one, so a
pointer to a pointer to a struct can never be embedded; the condition
recurses into the embedded structs the builder will scan.  The Go
compiler enforces this; the model's GoType also admits the illegal
shapes, so the development states the condition explicitly. -/
def goFieldsWF : List (String × String × Bool × Bool × GoType) → Bool
  | [] => true
  | (_, _, anon, _, t) :: fs =>
      (if anon then
        match t with
        | .struct_ _ _ fs2 => goFieldsWF fs2
        | .ptr (.struct_ _ _ fs2) => goFieldsWF fs2
        | .ptr (.ptr _) => false
        | _ => true
      else true) && goFieldsWF fs
termination_by fs => goFieldsSize fs
decreasing_by
  all_goals simp [goFieldsSize, goTypeSize]
  all_goals omega

/-- Go's embedding legality of a type. -/
def goWF : GoType → Bool
  | .struct_ _ _ fs => goFieldsWF fs
  | _ => true

/-- One pointer dereference of the walker's descent: a nil (or non-)
pointer reads as the pointee's zero value, exactly the value the walker
would allocate there. -/
def derefOrZero (te : GoType) (v : GoValue) : GoValue :=
  match v with
  | .vPtr (some u) => u
  | _ => zeroValue te

/-- The field a type reaches through an index path, mirroring the descent
of getFieldByIndex and setAtPath: one pointer dereference per step, then
the numbered field of the struct. -/
def fieldAtPath : GoType → List Nat → Option (String × String × Bool × Bool × GoType)
  | _, [] => none
  | .struct_ _ _ fs, [i] => fs.get? i
  | .struct_ _ _ fs, i :: r1 :: r2 =>
      (match fs.get? i with
       | some f => fieldAtPath (GoField.ftype f) (r1 :: r2)
       | none => none)
  | .ptr (.struct_ _ _ fs), [i] => fs.get? i
  | .ptr (.struct_ _ _ fs), i :: r1 :: r2 =>
      (match fs.get? i with
       | some f => fieldAtPath (GoField.ftype f) (r1 :: r2)
       | none => none)
  | _, _ :: _ => none
termination_by t p => p.length
decreasing_by
  all_goals simp
  all_goals omega

/-- The field reached by an index path every intermediate step of which
crosses an embedded (anonymous) member, the shape of every index path the
breadth-first builder records; the final field itself may or may not be
embedded. -/
def anonChainTo : GoType → List Nat → Option (String × String × Bool × Bool × GoType)
  | _, [] => none
  | .struct_ _ _ fs, [i] => fs.get? i
  | .struct_ _ _ fs, i :: r1 :: r2 =>
      (match fs.get? i with
       | some f =>
           if GoField.fanon f then anonChainTo (GoField.ftype f) (r1 :: r2) else none
       | none => none)
  | .ptr (.struct_ _ _ fs), [i] => fs.get? i
  | .ptr (.struct_ _ _ fs), i :: r1 :: r2 =>
      (match fs.get? i with
       | some f =>
           if GoField.fanon f then anonChainTo (GoField.ftype f) (r1 :: r2) else none
       | none => none)
  | _, _ :: _ => none
termination_by t p => p.length
decreasing_by
  all_goals simp
  all_goals omega

/-- Reads the value at an index path, the pure counterpart of the descent
of getFieldByIndex (a nil pointer reads as the zero value the decoder
would allocate in its place). -/
def getAtPath : GoType → GoValue → List Nat → GoValue
  | _, v, [] => v
  | .struct_ _ _ fs, v, i :: rest =>
      (match fs.get? i with
       | some f => getAtPath (GoField.ftype f) (structSlotGet v i (GoField.ftype f)) rest
       | none => v)
  | .ptr te, v, i :: rest =>
      (match te with
       | .struct_ _ _ fs =>
           (match fs.get? i with
            | some f => getAtPath (GoField.ftype f)
                (structSlotGet (derefOrZero te v) i (GoField.ftype f)) rest
            | none => v)
       | _ => v)
  | _, v, _ :: _ => v
termination_by t v p => p.length
decreasing_by
  all_goals simp
  all_goals omega

/-- Along an index path the value consists of well-sized struct layers,
and the slot the path reaches still holds the untouched zero value of its
type. -/
def ZeroPath : GoType → GoValue → List Nat → Prop
  | t, v, [] => v = zeroValue t
  | .struct_ _ _ fs, v, i :: rest =>
      ∃ vs, v = .vStruct vs ∧ vs.length = fs.length ∧
        ∃ f, fs.get? i = some f ∧
          ZeroPath (GoField.ftype f) (structSlotGet v i (GoField.ftype f)) rest
  | .ptr (.struct_ n rv fs), v, i :: rest =>
      ∃ vs, derefOrZero (.struct_ n rv fs) v = .vStruct vs ∧ vs.length = fs.length ∧
        ∃ f, fs.get? i = some f ∧
          ZeroPath (GoField.ftype f)
            (structSlotGet (derefOrZero (.struct_ n rv fs) v) i (GoField.ftype f)) rest
  | _, _, _ :: _ => False
termination_by t v p => p.length
decreasing_by
  all_goals simp
  all_goals omega

/-- Two index paths that part ways at some common position, so that
neither continues the other. -/
def Diverge : List Nat → List Nat → Prop
  | i :: p, j :: q => i ≠ j ∨ (i = j ∧ Diverge p q)
  | _, _ => False

/-- The context in which the builder scans a field list fs: either fs is
the root type's own field list (index path empty), or the index path
crosses embedded members only and ends at an embedded member whose type
carries fs (directly or behind one pointer). -/
def ChainCtx (R : GoType) (index : List Nat)
    (fs : List (String × String × Bool × Bool × GoType)) : Prop :=
  (index = [] ∧ ∃ n rv, R = .struct_ n rv fs ∨ R = .ptr (.struct_ n rv fs)) ∨
  (∃ g n rv, anonChainTo R index = some g ∧ GoField.fanon g = true ∧
    (GoField.ftype g = .struct_ n rv fs ∨ GoField.ftype g = .ptr (.struct_ n rv fs)))

/-- What the builder's invariant records about one queued scan: its index
path is an embedded-member chain of the root type ending at the member
whose (unstripped) type the scan carries, and whenever the scan's type
strips to a struct it is that struct directly or behind one pointer, with
a Go-legal field list. -/
def ScanOk (R : GoType) (s : FieldScan) : Prop :=
  ((s.index = [] ∧ s.typ = R) ∨
    (∃ g, anonChainTo R s.index = some g ∧ GoField.fanon g = true ∧
      GoField.ftype g = s.typ)) ∧
  (∀ n rv fs, stripPtr s.typ = .struct_ n rv fs →
    (s.typ = .struct_ n rv fs ∨ s.typ = .ptr (.struct_ n rv fs)) ∧ goFieldsWF fs = true)

/-- What the builder's invariant records about one resolvable mapping
entry: the stored external name is the key, and the stored index path is
an embedded-member chain of the root type ending at a non-embedded field
whose external name is that key. -/
def NamedEntryOk (R : GoType) (pr : String × FieldInfo) : Prop :=
  pr.2.jsonName = pr.1 ∧
  ∃ f, anonChainTo R pr.2.fieldIndex = some f ∧ GoField.fanon f = false ∧
    goFieldName f = pr.1

/-- One level of nesting a record inside a container: as a named object
field, as an array element, or as a map value under a given key. -/
inductive NestStep where
  | fieldStep (f : String)
  | elemStep
  | valueStep (k : String)

/-- Wraps a target type in single-member containers following the steps:
a one-field wrapper struct, a slice, or a map. -/
def wrapT : List NestStep → GoType → GoType
  | [], r => r
  | .fieldStep f :: rest, r => .struct_ "W" .noRecv [(f, "", false, true, wrapT rest r)]
  | .elemStep :: rest, r => .slice (wrapT rest r)
  | .valueStep _ :: rest, r => .map_ (wrapT rest r)

/-- Wraps a raw value in the matching single-member containers. -/
def wrapRaw : List NestStep → Raw → Raw
  | [], r => r
  | .fieldStep f :: rest, r => .obj [(f, wrapRaw rest r)]
  | .elemStep :: rest, r => .arr [wrapRaw rest r]
  | .valueStep k :: rest, r => .obj [(k, wrapRaw rest r)]

/-- The keys of an association list. -/
def keysOf (l : List (String × FieldInfo)) : List String := l.map Prod.fst

/-- The invariant of the builder state: unique keys in the resolvable
mapping; the all-names list duplicate-free, resolvable, and disjoint from
the names found at the current level; every resolvable key accounted for
by the all-names list or the current level. -/
def BuildInv (st : BuildState) : Prop :=
  (keysOf st.fields).Nodup ∧
  st.allNames.Nodup ∧
  st.found.Nodup ∧
  (∀ n, n ∈ st.allNames → (st.fields.lookup n).isSome) ∧
  (∀ n, n ∈ st.found → n ∉ st.allNames) ∧
  (∀ n, (st.fields.lookup n).isSome → n ∈ st.allNames ∨ n ∈ st.found)

/-- The Person record of the spec's end-to-end example: Name and Age with
lower-case json tags. -/
def PersonT : GoType :=
  .struct_ "Person" .noRecv
    [("Name", "name", false, true, .prim "string"),
     ("Age", "age", false, true, .prim "int")]

/-- CustomTime of the test-suite: a struct declaring UnmarshalJSON on a
pointer receiver. -/
def CustomTimeT : GoType :=
  .struct_ "CustomTime" .ptrRecv [("Time", "", false, true, .prim "int")]

/-- An event record holding a CustomTime field directly. -/
def EventT : GoType :=
  .struct_ "Event" .noRecv
    [("Name", "name", false, true, .prim "string"),
     ("Date", "date", false, true, CustomTimeT)]

/-- An event record holding a pointer-to-CustomTime field. -/
def EventPtrT : GoType :=
  .struct_ "EventPtr" .noRecv
    [("Name", "name", false, true, .prim "string"),
     ("Date", "date", false, true, .ptr CustomTimeT)]

/-- A record with two fields whose resolved names differ only by letter
case: tags "A" and "a". -/
def CaseTwinT : GoType :=
  .struct_ "CaseTwin" .noRecv
    [("FieldA", "A", false, true, .prim "string"),
     ("FieldB", "a", false, true, .prim "string")]

/-- A composite record embedding two records that both declare external
name "x", with one of them also embedding a third record that declares
"x" again one level deeper. -/
def ConflictDeepT : GoType :=
  .struct_ "ConflictDeep" .noRecv
    [("EmbedA", "", true, true,
        .struct_ "EmbedA" .noRecv
          [("X", "x", false, true, .prim "int"),
           ("Deeper", "", true, true, .struct_ "Deeper" .noRecv [("X", "x", false, true, .prim "bool")])]),
     ("EmbedB", "", true, true,
        .struct_ "EmbedB" .noRecv [("X", "x", false, true, .prim "string")])]

theorem editDist_zero_left (s t : List Char) (j : Nat) : editDist s t 0 j = j := by
  rw [editDist]

theorem editDist_zero_right (s t : List Char) (i : Nat) : editDist s t i 0 = i := by
  cases i with
  | zero => rw [editDist]
  | succ n => rw [editDist]

theorem minOfThree_eq (a b c : Nat) : minOfThree a b c = min a (min b c) := by
  unfold minOfThree
  split_ifs <;> omega

theorem rowOn_cons_head (s t : List Char) (i j : Nat) (ts : List Char) :
    rowOn s t i j ts = editDist s t i j :: (rowOn s t i j ts).tail := by
  cases ts <;> rw [rowOn] <;> rfl

theorem rowOn_zero (s t : List Char) : ∀ (ts : List Char) (j : Nat),
    rowOn s t 0 j ts = List.range' j (ts.length + 1)
  | [], j => by rw [rowOn, editDist_zero_left]; simp [List.range']
  | b :: ts, j => by
      rw [rowOn, editDist_zero_left, rowOn_zero s t ts (j + 1)]
      simp [List.range'_succ]

theorem rowOn_getLastD (s t : List Char) (i : Nat) : ∀ (ts : List Char) (j : Nat),
    (rowOn s t i j ts).getLastD 0 = editDist s t i (j + ts.length)
  | [], j => by simp [rowOn]
  | b :: ts, j => by
      have ih := rowOn_getLastD s t i ts (j + 1)
      rw [rowOn, rowOn_cons_head s t i (j + 1) ts]
      rw [rowOn_cons_head s t i (j + 1) ts] at ih
      simp only [List.getLastD_cons] at ih ⊢
      rw [ih]
      congr 1
      simp
      omega

theorem levInner_spec (s t : List Char) (i : Nat) : ∀ (ts : List Char) (j : Nat),
    t.drop j = ts →
    levInner (s.getD i ' ') ts (rowOn s t i j ts) (editDist s t (i + 1) j) =
      (rowOn s t (i + 1) j ts).tail
  | [], j, _ => by simp [levInner, rowOn]
  | b :: ts, j, h => by
      have hb : t.getD j ' ' = b := by
        have h1 : (t.drop j).headD ' ' = t.getD j ' ' := by
          simp [List.headD_eq_head?, List.head?_drop, List.getD_eq_getElem?_getD]
        rw [h] at h1
        simpa using h1.symm
      have hdrop : t.drop (j + 1) = ts := by
        rw [← List.tail_drop, h]
        rfl
      rw [rowOn, levInner]
      have ihead : rowOn s t i (j + 1) ts = editDist s t i (j + 1) :: (rowOn s t i (j + 1) ts).tail :=
        rowOn_cons_head s t i (j + 1) ts
      have hcj : minOfThree ((rowOn s t i (j + 1) ts).headD 0 + 1) (editDist s t (i + 1) j + 1)
          (editDist s t i j + if s.getD i ' ' = b then 0 else 1) = editDist s t (i + 1) (j + 1) := by
        rw [ihead]
        simp only [List.headD_cons]
        rw [minOfThree_eq]
        conv_rhs => rw [editDist]
        rw [hb]
        omega
      rw [hcj]
      rw [levInner_spec s t i ts (j + 1) hdrop]
      rw [rowOn]
      rw [rowOn_cons_head s t (i + 1) (j + 1) ts]
      simp

theorem levOuter_spec (s t : List Char) : ∀ (ss : List Char) (i : Nat),
    s.drop i = ss → i ≤ s.length →
    levOuter ss t (rowOn s t i 0 t) (i + 1) = editDist s t s.length t.length
  | [], i, h, hle => by
      have hi : i = s.length := by
        have := List.drop_eq_nil_iff.mp h
        omega
      rw [levOuter, rowOn_getLastD s t i t 0]
      rw [hi]
      simp
  | a :: ss2, i, h, hle => by
      have hlt : i < s.length := by
        by_contra hc
        rw [List.drop_eq_nil_of_le (by omega)] at h
        exact List.noConfusion h
      have ha : s.getD i ' ' = a := by
        have h1 : (s.drop i).headD ' ' = s.getD i ' ' := by
          simp [List.headD_eq_head?, List.head?_drop, List.getD_eq_getElem?_getD]
        rw [h] at h1
        simpa using h1.symm
      have hdrop : s.drop (i + 1) = ss2 := by
        rw [← List.tail_drop, h]
        rfl
      rw [levOuter]
      have hinner : levInner a t (rowOn s t i 0 t) (i + 1) = (rowOn s t (i + 1) 0 t).tail := by
        have h0 : editDist s t (i + 1) 0 = i + 1 := editDist_zero_right s t (i + 1)
        have hs := levInner_spec s t i t 0 rfl
        rw [ha, h0] at hs
        exact hs
      rw [hinner]
      have hrow : (i + 1) :: (rowOn s t (i + 1) 0 t).tail = rowOn s t (i + 1) 0 t := by
        have hh := rowOn_cons_head s t (i + 1) 0 t
        rw [editDist_zero_right] at hh
        exact hh.symm
      rw [hrow]
      exact levOuter_spec s t ss2 (i + 1) hdrop (by omega)

theorem levenshteinDistance_eq_editDist (s1 s2 : String) :
    levenshteinDistance s1 s2 = editDist s1.data s2.data s1.data.length s2.data.length := by
  unfold levenshteinDistance
  have hlen1 : s1.length = s1.data.length := rfl
  have hlen2 : s2.length = s2.data.length := rfl
  split
  next h =>
    rw [hlen1] at h
    rw [h, editDist_zero_left, hlen2]
  next h1 =>
    split
    next h2 =>
      rw [hlen2] at h2
      rw [h2, editDist_zero_right, hlen1]
    next h2 =>
      have hrow : List.range (s2.length + 1) = rowOn s1.data s2.data 0 0 s2.data := by
        rw [rowOn_zero s1.data s2.data s2.data 0]
        rw [List.range_eq_range']
        rw [hlen2]
      rw [hrow]
      have h := levOuter_spec s1.data s2.data s1.data 0 rfl (by omega)
      simpa using h

/-- C4: findSuggestion realises the two-phase suggestion contract: the
first known name equal to the unknown key ignoring case if one exists,
else the first known name in recorded order whose classic
single-character-edit (Levenshtein) distance from the unknown key is at
most 2, else no suggestion.  The source's two-row dynamic program is
proved equal to the textbook edit-distance recurrence. -/
theorem findSuggestion_two_phase (u : String) (names : List String) :
    findSuggestion u names = suggestSpec u names := by
  unfold findSuggestion suggestSpec
  simp only [levenshteinDistance_eq_editDist]

/-- C8: a raw literal null succeeds and leaves the target untouched at
its current value, at every recursion depth (the walker's per-value step
itself) and at the entry point, for every decoder configuration, target
type and target value. -/
theorem null_leaves_target_untouched :
    (∀ (d : Decoder) (t : GoType) (v : GoValue), unmarshalValue d Raw.null t v = (v, none)) ∧
    (∀ (d : Decoder) (t : GoType) (v : GoValue),
      d.Unmarshal Raw.null (GoType.ptr t) (GoValue.vPtr (some v)) = (GoValue.vPtr (some v), none)) := by
  constructor
  · intro d t v
    rw [unmarshalValue]
    simp [Raw.isNull]
  · intro d t v
    rw [Decoder.Unmarshal]
    rw [unmarshalValue]
    simp [Raw.isNull]

theorem lookup_append (l1 l2 : List (String × FieldInfo)) (k : String) :
    (l1 ++ l2).lookup k =
      (match l1.lookup k with
       | some w => some w
       | none => l2.lookup k) := by
  induction l1 with
  | nil => simp
  | cons p rest ih =>
      obtain ⟨a, b⟩ := p
      by_cases h : k = a
      · subst h
        simp [List.lookup]
      · have hb : (k == a) = false := beq_eq_false_iff_ne.mpr h
        simp [List.lookup, hb, ih]

theorem lookup_isSome_iff_mem (l : List (String × FieldInfo)) (k : String) :
    (l.lookup k).isSome ↔ k ∈ keysOf l := by
  induction l with
  | nil => simp [keysOf]
  | cons p rest ih =>
      obtain ⟨a, b⟩ := p
      by_cases h : k = a
      · subst h
        simp [List.lookup, keysOf]
      · have hb : (k == a) = false := beq_eq_false_iff_ne.mpr h
        simp [List.lookup, hb, keysOf, ih, h]

theorem lookup_assocErase_self (l : List (String × FieldInfo)) (k : String) :
    ((assocErase k l).lookup k) = none := by
  induction l with
  | nil => simp [assocErase]
  | cons p rest ih =>
      obtain ⟨a, b⟩ := p
      by_cases h : a = k
      · subst h
        simpa [assocErase] using ih
      · have hb : (a == k) = false := beq_eq_false_iff_ne.mpr h
        have hb2 : (k == a) = false := beq_eq_false_iff_ne.mpr (Ne.symm h)
        simp only [assocErase, List.filter_cons, hb, bne, Bool.not_false] at ih ⊢
        simp only [List.lookup, hb2]
        exact ih

theorem lookup_assocErase_ne (l : List (String × FieldInfo)) (k k2 : String) (h : k ≠ k2) :
    ((assocErase k2 l).lookup k) = l.lookup k := by
  induction l with
  | nil => simp [assocErase]
  | cons p rest ih =>
      obtain ⟨a, b⟩ := p
      by_cases h2 : a = k2
      · subst h2
        have hb : (k == a) = false := beq_eq_false_iff_ne.mpr h
        simp only [assocErase, List.filter_cons, bne_self_eq_false] at ih ⊢
        simp only [List.lookup, hb]
        exact ih
      · have hb : (a == k2) = false := beq_eq_false_iff_ne.mpr h2
        by_cases h3 : k = a
        · subst h3
          simp only [assocErase, List.filter_cons, hb, bne, Bool.not_false, List.lookup,
            beq_self_eq_true] at ih ⊢
        · have hb3 : (k == a) = false := beq_eq_false_iff_ne.mpr h3
          simp only [assocErase, List.filter_cons, hb, bne, Bool.not_false, List.lookup, hb3] at ih ⊢
          exact ih

theorem keysOf_append_single (l : List (String × FieldInfo)) (k : String) (v : FieldInfo) :
    keysOf (l ++ [(k, v)]) = keysOf l ++ [k] := by
  simp [keysOf]

theorem keysOf_assocErase_sublist (l : List (String × FieldInfo)) (k : String) :
    (keysOf (assocErase k l)).Sublist (keysOf l) := by
  simp only [keysOf, assocErase]
  exact List.Sublist.map Prod.fst (List.filter_sublist l)

theorem nodup_keysOf_assocErase (l : List (String × FieldInfo)) (k : String)
    (h : (keysOf l).Nodup) : (keysOf (assocErase k l)).Nodup :=
  (keysOf_assocErase_sublist l k).nodup h

theorem lookup_assocErase_isSome (l : List (String × FieldInfo)) (k k2 : String)
    (h : ((assocErase k2 l).lookup k).isSome) : (l.lookup k).isSome := by
  by_cases hk : k = k2
  · subst hk
    rw [lookup_assocErase_self] at h
    simp at h
  · rwa [lookup_assocErase_ne l k k2 hk] at h

theorem lookup_append_single_isSome (l : List (String × FieldInfo)) (k k2 : String)
    (v : FieldInfo) (h : (l.lookup k).isSome) : ((l ++ [(k2, v)]).lookup k).isSome := by
  rw [lookup_append]
  rcases hl : l.lookup k with _ | w
  · rw [hl] at h
    simp at h
  · simp

theorem processField_inv (index : List Nat) (st : BuildState) (p : Nat × GoField)
    (h : BuildInv st) : BuildInv (processField index st p) := by
  obtain ⟨h1, h2, h3, h4, h5, h6⟩ := h
  unfold processField
  dsimp only
  split
  · exact ⟨h1, h2, h3, h4, h5, h6⟩
  split
  · exact ⟨h1, h2, h3, h4, h5, h6⟩
  split
  · exact ⟨h1, h2, h3, h4, h5, h6⟩
  split
  next hfound =>
    -- same-level conflict: the existing mapping is deleted
    refine ⟨nodup_keysOf_assocErase _ _ h1, h2, h3, ?_, h5, ?_⟩
    · intro n hn
      have hne : n ≠ goFieldName p.2 := by
        intro he
        subst he
        exact h5 _ (by simpa using hfound) hn
      rw [lookup_assocErase_ne _ _ _ hne]
      exact h4 n hn
    · intro n hn
      exact h6 n (lookup_assocErase_isSome _ _ _ hn)
  split
  · exact ⟨h1, h2, h3, h4, h5, h6⟩
  next hfound hshadow =>
    -- fresh name: recorded in the mapping and in the level's found list
    have hnotmem : goFieldName p.2 ∉ keysOf st.fields := by
      intro hmem
      exact hshadow ((lookup_isSome_iff_mem _ _).mpr hmem)
    have hnotfound : goFieldName p.2 ∉ st.found := by
      intro hmem
      exact hfound (by simpa using hmem)
    have hnotall : goFieldName p.2 ∉ st.allNames := by
      intro hmem
      exact hshadow (h4 _ hmem)
    refine ⟨?_, h2, ?_, ?_, ?_, ?_⟩
    · rw [keysOf_append_single]
      simp [List.nodup_append, h1, hnotmem]
    · simp [List.nodup_append, h3, hnotfound]
    · intro n hn
      exact lookup_append_single_isSome _ _ _ _ (h4 n hn)
    · intro n hn
      rcases List.mem_append.mp hn with hn1 | hn2
      · exact h5 n hn1
      · simp at hn2
        subst hn2
        exact hnotall
    · intro n hn
      rw [lookup_append] at hn
      rcases hl : st.fields.lookup n with _ | w
      · rw [hl] at hn
        simp at hn
        subst hn
        right
        simp
      · rw [hl] at hn
        rcases h6 n (by rw [hl]; rfl) with ha | hf
        · exact Or.inl ha
        · exact Or.inr (List.mem_append_left _ hf)

theorem foldl_processField_inv (index : List Nat) (l : List (Nat × GoField))
    (st : BuildState) (h : BuildInv st) : BuildInv (l.foldl (processField index) st) := by
  induction l generalizing st with
  | nil => exact h
  | cons p rest ih => exact ih _ (processField_inv index st p h)

theorem processScan_inv (st : BuildState) (scan : FieldScan) (h : BuildInv st) :
    BuildInv (processScan st scan) := by
  unfold processScan
  rcases hs : stripPtr scan.typ with n | ⟨n, r, fs⟩ | te | te | te
  · exact h
  · simp only
    split
    · exact h
    · exact foldl_processField_inv scan.index fs.enum _ h
  · exact h
  · exact h
  · exact h

theorem foldl_processScan_inv (l : List FieldScan) (st : BuildState) (h : BuildInv st) :
    BuildInv (l.foldl processScan st) := by
  induction l generalizing st with
  | nil => exact h
  | cons s rest ih => exact ih _ (processScan_inv st s h)

theorem endLevel_inv (st : BuildState) (h : BuildInv st) : BuildInv (endLevel st) := by
  obtain ⟨h1, h2, h3, h4, h5, h6⟩ := h
  unfold endLevel
  refine ⟨h1, ?_, List.nodup_nil, ?_, ?_, ?_⟩
  · simp only
    rw [List.nodup_append]
    refine ⟨h2, h3.filter _, ?_⟩
    intro n hn hn2
    exact h5 n (List.mem_of_mem_filter hn2) hn
  · intro n hn
    simp only at hn ⊢
    rcases List.mem_append.mp hn with ha | hf
    · exact h4 n ha
    · have := List.of_mem_filter hf
      simpa using this
  · intro n hn
    simp at hn
  · intro n hn
    simp only at hn ⊢
    rcases h6 n hn with ha | hf
    · exact Or.inl (List.mem_append_left _ ha)
    · left
      refine List.mem_append_right _ ?_
      refine List.mem_filter.mpr ⟨hf, ?_⟩
      simpa using hn

theorem bfsLoop_inv : ∀ (st : BuildState) (current : List FieldScan),
    BuildInv st → st.found = [] →
    BuildInv (bfsLoop st current) ∧ (bfsLoop st current).found = [] := by
  intro st current
  induction st, current using bfsLoop.induct with
  | case1 st =>
      intro h hf
      rw [bfsLoop]
      exact ⟨h, hf⟩
  | case2 st hd tl st1 ih =>
      intro h hf
      rw [bfsLoop]
      simp only
      have hinv0 : BuildInv { st with found := [], next := [] } := by
        obtain ⟨h1, h2, h3, h4, h5, h6⟩ := h
        refine ⟨h1, h2, List.nodup_nil, h4, ?_, ?_⟩
        · intro n hn
          simp at hn
        · intro n hn
          rcases h6 n hn with ha | hfo
          · exact Or.inl ha
          · rw [hf] at hfo
            simp at hfo
      have hinv1 := foldl_processScan_inv (hd :: tl) _ hinv0
      have hinv2 := endLevel_inv _ hinv1
      exact ih hinv2 rfl

theorem buildInv_init : BuildInv ⟨[], [], "", [], [], []⟩ := by
  refine ⟨by simp [keysOf], by simp, by simp, ?_, ?_, ?_⟩
  · intro n hn
    simp at hn
  · intro n hn
    simp at hn
  · intro n hn
    simp [List.lookup] at hn

theorem buildStructFields_inv (t : GoType) :
    (keysOf (buildStructFields t).fields).Nodup ∧
    ((buildStructFields t).allNames).Nodup ∧
    (∀ n, n ∈ (buildStructFields t).allNames ↔
      (((buildStructFields t).fields).lookup n).isSome) := by
  unfold buildStructFields
  obtain ⟨⟨h1, h2, h3, h4, h5, h6⟩, hf⟩ :=
    bfsLoop_inv ⟨[], [], "", [], [], []⟩ [⟨t, []⟩] buildInv_init rfl
  refine ⟨h1, h2, ?_⟩
  intro n
  constructor
  · intro hn
    exact h4 n hn
  · intro hn
    rcases h6 n hn with ha | hfo
    · exact ha
    · rw [hf] at hfo
      simp at hfo

/-- The provable part of the all-names contract: the descriptor's
all-names list is duplicate-free, and a name appears in it exactly when
the resolvable mapping resolves that name.  (The source appends the
within-level names by ranging over the fieldsFoundThisLevel map, whose
iteration order Go leaves unspecified, so no recording-order property
beyond this is a property of the code; the model fixes that order to
insertion order.) -/
theorem allNames_complete_and_unique (t : GoType) :
    ((buildStructFields t).allNames).Nodup ∧
    (∀ n, n ∈ (buildStructFields t).allNames ↔
      (((buildStructFields t).fields).lookup n).isSome) :=
  ⟨(buildStructFields_inv t).2.1, (buildStructFields_inv t).2.2⟩

theorem buildStructFields_ConflictDeepT :
    buildStructFields ConflictDeepT =
      ⟨[("x", ⟨"x", [0, 1, 0]⟩)], ["x"], "x"⟩ := by
  simp [buildStructFields, bfsLoop, processScan, processField, endLevel, stripPtr,
    ConflictDeepT, List.enum, List.enumFrom, goFieldName, parseTag, tagName,
    GoField.fanon, GoField.fexported, GoField.ftag, GoField.fname, GoField.ftype,
    assocErase, List.lookup, keysOf]

/-- C6 (counterexample): the descriptor of ConflictDeep marks "x" as a
conflict, yet "x" is present in the resolvable mapping (re-added by a
deeper embedding level after the conflicting level deleted it) and is
present in the all-names list, contradicting the claim that a conflicted
name is absent from the mapping and fully excluded from all-names. -/
theorem conflicted_name_reappears_cx :
    (buildStructFields ConflictDeepT).conflict = "x" ∧
    ((buildStructFields ConflictDeepT).fields).lookup "x" = some ⟨"x", [0, 1, 0]⟩ ∧
    "x" ∈ (buildStructFields ConflictDeepT).allNames := by
  rw [buildStructFields_ConflictDeepT]
  refine ⟨rfl, ?_, by simp⟩
  simp [List.lookup]

/-- C6 (amended): the resolvable mapping always has at most one
FieldLocation per key name; a name marked as conflicted is deleted from
the mapping at the level where the conflict occurs (a deeper level may
re-insert it), but the conflict marker makes every decode of the type
fail with the conflict error before any field is processed, so a key of
a conflicted type never resolves; and a name already claimed at a
shallower level makes a deeper same-name field be ignored (shadowed)
rather than reported as a conflict. -/
theorem descriptor_invariant_amended :
    (∀ t : GoType, (keysOf (buildStructFields t).fields).Nodup) ∧
    (∀ (t : GoType) (d : Decoder) (raw : List (String × Raw)) (v : GoValue),
      (buildStructFields t).conflict ≠ "" →
      unmarshalStruct d (.obj raw) t v =
        (v, some (.fieldConflict (buildStructFields t).conflict))) ∧
    (∀ (index : List Nat) (st : BuildState) (p : Nat × GoField),
      p.2.fanon = false → p.2.fexported = true → p.2.ftag ≠ "-" →
      st.found.contains (goFieldName p.2) = false →
      (st.fields.lookup (goFieldName p.2)).isSome →
      processField index st p = st) := by
  refine ⟨fun t => (buildStructFields_inv t).1, ?_, ?_⟩
  · intro t d raw v hc
    rw [unmarshalStruct]
    simp only [getStructFields, hc]
    simp [hc]
  · intro index st p h1 h2 h3 h4 h5
    unfold processField
    simp [h1, h2, h3, h5]
    intro hmem
    exact absurd hmem (by simpa using h4)

/-- C6 (witness): the amended statement applied to the ConflictDeep type
with an empty input object and to a concrete shadowed field step. -/
theorem descriptor_invariant_amended_witness :
    unmarshalStruct (NewDecoder []) (.obj []) ConflictDeepT (zeroValue ConflictDeepT) =
      (zeroValue ConflictDeepT, some (.fieldConflict "x")) ∧
    processField [] ⟨[("n", ⟨"n", [0]⟩)], [], "", [], [], []⟩
        (1, ("N2", "n", false, true, .prim "int")) =
      ⟨[("n", ⟨"n", [0]⟩)], [], "", [], [], []⟩ := by
  constructor
  · have h := descriptor_invariant_amended.2.1 ConflictDeepT (NewDecoder []) []
      (zeroValue ConflictDeepT) (by rw [buildStructFields_ConflictDeepT]; simp)
    rw [buildStructFields_ConflictDeepT] at h
    exact h
  · refine descriptor_invariant_amended.2.2 [] _ _ rfl rfl (by simp [GoField.ftag]) ?_ ?_
    · simp [goFieldName, parseTag, tagName, GoField.ftag, GoField.fname]
    · simp [goFieldName, parseTag, tagName, GoField.ftag, GoField.fname, List.lookup]

theorem unmarshalStruct_conflict (t : GoType) (d : Decoder) (raw : List (String × Raw))
    (v : GoValue) (hc : (buildStructFields t).conflict ≠ "") :
    unmarshalStruct d (.obj raw) t v =
      (v, some (.fieldConflict (buildStructFields t).conflict)) := by
  rw [unmarshalStruct]
  simp only [getStructFields, hc]
  simp [hc]

theorem unmarshalValue_struct_noRecv (d : Decoder) (sn : String) (fs : List GoField)
    (data : Raw) (v : GoValue) (hnn : data.isNull = false) :
    unmarshalValue d data (.struct_ sn .noRecv fs) v =
      unmarshalStruct d data (.struct_ sn .noRecv fs) v := by
  rw [unmarshalValue]
  simp [hnn, implementsUnmarshaler, stripPtr, allocDescend, rewrapPtr]

theorem conflict_family (tn an bn n : String) (fa fb : GoField)
    (han : an ≠ tn) (hbn : bn ≠ tn) (hab : bn ≠ an)
    (hfa1 : fa.fanon = false) (hfa2 : fa.fexported = true) (hfa3 : fa.ftag ≠ "-")
    (hfa4 : goFieldName fa = n)
    (hfb1 : fb.fanon = false) (hfb2 : fb.fexported = true) (hfb3 : fb.ftag ≠ "-")
    (hfb4 : goFieldName fb = n) :
    buildStructFields (.struct_ tn .noRecv
        [("A", "", true, true, .struct_ an .noRecv [fa]),
         ("B", "", true, true, .struct_ bn .noRecv [fb])]) = ⟨[], [], n⟩ := by
  obtain ⟨fa1, fa2, fa3, fa4, fa5⟩ := fa
  obtain ⟨fb1, fb2, fb3, fb4, fb5⟩ := fb
  simp only [GoField.fanon, GoField.fexported, GoField.ftag] at hfa1 hfa2 hfa3 hfb1 hfb2 hfb3
  subst hfa1 hfa2 hfb1 hfb2
  simp [buildStructFields, bfsLoop, processScan, processField, endLevel, stripPtr,
    List.enum, List.enumFrom,
    GoField.fanon, GoField.fexported, GoField.ftag, GoField.fname, GoField.ftype,
    assocErase, List.lookup, keysOf, han, hbn, hab,
    hfa3, hfa4, hfb3, hfb4]


/-- C7: a composite record embedding two records at the same level that
each declare the same external field name fails every decode attempt with
the field-name-conflict error naming the colliding key, even when the
input object omits that key entirely (the raw object is arbitrary), and
before any field of the type is processed (the target value is returned
unchanged). -/
theorem embedded_conflict_fails_decode (tn an bn n : String) (fa fb : GoField)
    (d : Decoder) (raw : List (String × Raw)) (v : GoValue)
    (hne : n ≠ "")
    (han : an ≠ tn) (hbn : bn ≠ tn) (hab : bn ≠ an)
    (hfa1 : fa.fanon = false) (hfa2 : fa.fexported = true) (hfa3 : fa.ftag ≠ "-")
    (hfa4 : goFieldName fa = n)
    (hfb1 : fb.fanon = false) (hfb2 : fb.fexported = true) (hfb3 : fb.ftag ≠ "-")
    (hfb4 : goFieldName fb = n) :
    unmarshalValue d (.obj raw) (.struct_ tn .noRecv
        [("A", "", true, true, .struct_ an .noRecv [fa]),
         ("B", "", true, true, .struct_ bn .noRecv [fb])]) v =
      (v, some (.fieldConflict n)) := by
  rw [unmarshalValue_struct_noRecv d tn
    [("A", "", true, true, .struct_ an .noRecv [fa]), ("B", "", true, true, .struct_ bn .noRecv [fb])]
    (.obj raw) v rfl]
  have hb := conflict_family tn an bn n fa fb han hbn hab hfa1 hfa2 hfa3 hfa4 hfb1 hfb2 hfb3 hfb4
  have hc : (buildStructFields (.struct_ tn .noRecv
      [("A", "", true, true, .struct_ an .noRecv [fa]),
       ("B", "", true, true, .struct_ bn .noRecv [fb])])).conflict ≠ "" := by
    rw [hb]
    exact hne
  have h2 := unmarshalStruct_conflict _ d raw v hc
  rw [hb] at h2
  exact h2

/-- C7 (witness): the conflict theorem applied to a concrete composite
type and the empty input object. -/
theorem embedded_conflict_fails_decode_witness :
    unmarshalValue (NewDecoder []) (.obj [])
      (.struct_ "T" .noRecv
        [("A", "", true, true, .struct_ "EA" .noRecv [("X", "x", false, true, .prim "int")]),
         ("B", "", true, true, .struct_ "EB" .noRecv [("Y", "x", false, true, .prim "bool")])])
      (.vStruct []) =
      (.vStruct [], some (.fieldConflict "x")) := by
  exact embedded_conflict_fails_decode "T" "EA" "EB" "x"
    ("X", "x", false, true, .prim "int") ("Y", "x", false, true, .prim "bool")
    (NewDecoder []) [] (.vStruct [])
    (by decide) (by decide) (by decide) (by decide)
    rfl rfl (by decide) (by simp [goFieldName, parseTag, tagName, GoField.ftag, GoField.fname])
    rfl rfl (by decide) (by simp [goFieldName, parseTag, tagName, GoField.ftag, GoField.fname])


theorem visited_dedup_two_paths (tn an bn sn ns : String) (fS : GoField)
    (h1 : an ≠ tn) (h2 : bn ≠ tn) (h3 : bn ≠ an)
    (h4 : sn ≠ tn) (h5 : sn ≠ an) (h6 : sn ≠ bn)
    (hf1 : fS.fanon = false) (hf2 : fS.fexported = true) (hf3 : fS.ftag ≠ "-")
    (hf4 : goFieldName fS = ns) :
    buildStructFields (.struct_ tn .noRecv
        [("A", "", true, true, .struct_ an .noRecv [("S", "", true, true, .struct_ sn .noRecv [fS])]),
         ("B", "", true, true, .struct_ bn .noRecv [("S", "", true, true, .struct_ sn .noRecv [fS])])]) =
      ⟨[(ns, ⟨ns, [0, 0, 0]⟩)], [ns], ""⟩ := by
  obtain ⟨f1, f2, f3, f4, f5⟩ := fS
  simp only [GoField.fanon, GoField.fexported, GoField.ftag] at hf1 hf2 hf3
  subst hf1 hf2
  simp [buildStructFields, bfsLoop, processScan, processField, endLevel, stripPtr,
    List.enum, List.enumFrom,
    GoField.fanon, GoField.fexported, GoField.ftag, GoField.fname, GoField.ftype,
    assocErase, List.lookup, keysOf, h1, h2, h3, h4, h5, h6, hf3, hf4]

theorem visited_dedup_deeper (tn2 cn sn ns : String) (fS : GoField)
    (h1 : sn ≠ tn2) (h2 : cn ≠ tn2) (h3 : cn ≠ sn) (h4 : sn ≠ cn)
    (hf1 : fS.fanon = false) (hf2 : fS.fexported = true) (hf3 : fS.ftag ≠ "-")
    (hf4 : goFieldName fS = ns) :
    buildStructFields (.struct_ tn2 .noRecv
        [("S", "", true, true, .struct_ sn .noRecv [fS]),
         ("C", "", true, true, .struct_ cn .noRecv [("S", "", true, true, .struct_ sn .noRecv [fS])])]) =
      ⟨[(ns, ⟨ns, [0, 0]⟩)], [ns], ""⟩ := by
  obtain ⟨f1, f2, f3, f4, f5⟩ := fS
  simp only [GoField.fanon, GoField.fexported, GoField.ftag] at hf1 hf2 hf3
  subst hf1 hf2
  simp [buildStructFields, bfsLoop, processScan, processField, endLevel, stripPtr,
    List.enum, List.enumFrom,
    GoField.fanon, GoField.fexported, GoField.ftag, GoField.fname, GoField.ftype,
    assocErase, List.lookup, keysOf, h1, h2, h3, h4, hf3, hf4]


/-- C10: during one descriptor build, the breadth-first traversal scans
each concrete struct type at most once.  When the same struct type is
reachable by embedding through two different paths, only the
first-scanned occurrence contributes its fields (under the first path's
index), the later occurrence is skipped entirely, and no conflict is
recorded; likewise when the type reappears at a deeper embedding level. -/
theorem struct_type_scanned_once :
    (∀ (tn an bn sn ns : String) (fS : GoField),
      an ≠ tn → bn ≠ tn → bn ≠ an → sn ≠ tn → sn ≠ an → sn ≠ bn →
      fS.fanon = false → fS.fexported = true → fS.ftag ≠ "-" → goFieldName fS = ns →
      buildStructFields (.struct_ tn .noRecv
          [("A", "", true, true, .struct_ an .noRecv [("S", "", true, true, .struct_ sn .noRecv [fS])]),
           ("B", "", true, true, .struct_ bn .noRecv [("S", "", true, true, .struct_ sn .noRecv [fS])])]) =
        ⟨[(ns, ⟨ns, [0, 0, 0]⟩)], [ns], ""⟩) ∧
    (∀ (tn2 cn sn ns : String) (fS : GoField),
      sn ≠ tn2 → cn ≠ tn2 → cn ≠ sn →
      fS.fanon = false → fS.fexported = true → fS.ftag ≠ "-" → goFieldName fS = ns →
      buildStructFields (.struct_ tn2 .noRecv
          [("S", "", true, true, .struct_ sn .noRecv [fS]),
           ("C", "", true, true, .struct_ cn .noRecv [("S", "", true, true, .struct_ sn .noRecv [fS])])]) =
        ⟨[(ns, ⟨ns, [0, 0]⟩)], [ns], ""⟩) := by
  constructor
  · intro tn an bn sn ns fS h1 h2 h3 h4 h5 h6 hf1 hf2 hf3 hf4
    exact visited_dedup_two_paths tn an bn sn ns fS h1 h2 h3 h4 h5 h6 hf1 hf2 hf3 hf4
  · intro tn2 cn sn ns fS h1 h2 h3 hf1 hf2 hf3 hf4
    exact visited_dedup_deeper tn2 cn sn ns fS h1 h2 h3 (Ne.symm h3) hf1 hf2 hf3 hf4

/-- C10 (witness): the deduplication theorem applied to concrete types. -/
theorem struct_type_scanned_once_witness :
    buildStructFields (.struct_ "T" .noRecv
        [("A", "", true, true, .struct_ "A" .noRecv [("S", "", true, true, .struct_ "S" .noRecv [("N", "n", false, true, .prim "int")])]),
         ("B", "", true, true, .struct_ "B" .noRecv [("S", "", true, true, .struct_ "S" .noRecv [("N", "n", false, true, .prim "int")])])]) =
      ⟨[("n", ⟨"n", [0, 0, 0]⟩)], ["n"], ""⟩ ∧
    buildStructFields (.struct_ "T2" .noRecv
        [("S", "", true, true, .struct_ "S" .noRecv [("N", "n", false, true, .prim "int")]),
         ("C", "", true, true, .struct_ "C" .noRecv [("S", "", true, true, .struct_ "S" .noRecv [("N", "n", false, true, .prim "int")])])]) =
      ⟨[("n", ⟨"n", [0, 0]⟩)], ["n"], ""⟩ := by
  constructor
  · exact struct_type_scanned_once.1 "T" "A" "B" "S" "n" ("N", "n", false, true, .prim "int")
      (by decide) (by decide) (by decide) (by decide) (by decide) (by decide)
      rfl rfl (by decide)
      (by simp [goFieldName, parseTag, tagName, GoField.ftag, GoField.fname])
  · exact struct_type_scanned_once.2 "T2" "C" "S" "n" ("N", "n", false, true, .prim "int")
      (by decide) (by decide) (by decide)
      rfl rfl (by decide)
      (by simp [goFieldName, parseTag, tagName, GoField.ftag, GoField.fname])


/-- C3 (code evaluated at the failing input): a custom decoder on a
pointer receiver is honoured when the field's static type is the type
itself - the raw bytes are delegated verbatim and no key-strictness is
applied inside, even for an object carrying an unknown key.  But when the
field's static type is a pointer to that type, the capability check
(performed on the address of the static type, which is a pointer to a
pointer) misses the decoder: the walker allocates the value and decodes
it strictly, so the same input that succeeds for a CustomTime field fails
for a *CustomTime field.  The source even computes the pointer-stripped
type for this check and then never uses it. -/
theorem custom_unmarshaler_pointer_field_bug :
    (Unmarshal (.obj [("name", .rstr "Birthday"), ("date", .rstr "2024-01-15")]) (.ptr EventT)
        (.vPtr (some (zeroValue EventT)))) =
      (.vPtr (some (.vStruct [.vPrim (some (.rstr "Birthday")), .vCustom (.rstr "2024-01-15")])),
        none) ∧
    (Unmarshal (.obj [("date", .obj [("UNKNOWN", .rnum 1)])]) (.ptr EventT)
        (.vPtr (some (zeroValue EventT)))) =
      (.vPtr (some (.vStruct [.vPrim none, .vCustom (.obj [("UNKNOWN", .rnum 1)])])), none) ∧
    (Unmarshal (.obj [("name", .rstr "Birthday"), ("date", .rstr "2024-01-15")]) (.ptr EventPtrT)
        (.vPtr (some (zeroValue EventPtrT)))).2 = some .jsonError := by
  refine ⟨?_, ?_, ?_⟩ <;>
  simp [Unmarshal, Decoder.Unmarshal, NewDecoder, unmarshalValue, unmarshalStruct,
    unmarshalSlice, unmarshalMap, decodeFields, decodeElems, decodeMapEntries, setAtPath,
    getStructFields, buildStructFields, bfsLoop, processScan, processField, endLevel,
    stripPtr, implementsUnmarshaler, containsStruct, allocDescend, rewrapPtr, zeroValue,
    zeroFields, structSlotGet, structSlotSet, decodePrimStep, primCompat, Raw.isNull,
    goFieldName, parseTag, tagName, GoField.fanon, GoField.fexported, GoField.ftag,
    GoField.fname, GoField.ftype, List.enum, List.enumFrom, List.lookup, List.find?,
    keysOf, assocErase, EventT, EventPtrT, CustomTimeT, findSuggestion]


theorem unmarshalValue_slice_dispatch (d : Decoder) (te : GoType) (data : Raw) (v : GoValue)
    (hnn : data.isNull = false) :
    unmarshalValue d data (.slice te) v = unmarshalSlice d data (.slice te) v := by
  rw [unmarshalValue]
  simp [hnn, implementsUnmarshaler, stripPtr, allocDescend, rewrapPtr]

theorem unmarshalValue_map_dispatch (d : Decoder) (te : GoType) (data : Raw) (v : GoValue)
    (hnn : data.isNull = false) :
    unmarshalValue d data (.map_ te) v = unmarshalMap d data (.map_ te) v := by
  rw [unmarshalValue]
  simp [hnn, implementsUnmarshaler, stripPtr, allocDescend, rewrapPtr]

theorem containsStruct_wrapT : ∀ (steps : List NestStep) (R : GoType),
    containsStruct R = true → containsStruct (wrapT steps R) = true
  | [], R, h => h
  | .fieldStep f :: rest, R, h => by
      simp [wrapT, containsStruct, implementsUnmarshaler]
  | .elemStep :: rest, R, h => by
      rw [wrapT, containsStruct]
      exact containsStruct_wrapT rest R h
  | .valueStep k :: rest, R, h => by
      rw [wrapT, containsStruct]
      exact containsStruct_wrapT rest R h

theorem buildStructFields_wrapper (f : String) (te : GoType) :
    buildStructFields (.struct_ "W" .noRecv [(f, "", false, true, te)]) =
      ⟨[(f, ⟨f, [0]⟩)], [f], ""⟩ := by
  simp [buildStructFields, bfsLoop, processScan, processField, endLevel, stripPtr,
    List.enum, List.enumFrom, goFieldName, parseTag, tagName,
    GoField.fanon, GoField.fexported, GoField.ftag, GoField.fname, GoField.ftype,
    assocErase, List.lookup, keysOf]

theorem wrap_error (d : Decoder) (R : GoType) (innerRaw : Raw) (e : DErr)
    (hcs : containsStruct R = true)
    (hfail : ∀ v, (unmarshalValue d innerRaw R v).2 = some e) :
    ∀ (steps : List NestStep) (v : GoValue),
      (unmarshalValue d (wrapRaw steps innerRaw) (wrapT steps R) v).2 = some e
  | [], v => hfail v
  | .fieldStep f :: rest, v => by
      rw [wrapRaw, wrapT]
      rw [unmarshalValue_struct_noRecv d "W" [(f, "", false, true, wrapT rest R)]
        (.obj [(f, wrapRaw rest innerRaw)]) v rfl]
      rw [unmarshalStruct]
      simp only [getStructFields, buildStructFields_wrapper]
      have ih := wrap_error d R innerRaw e hcs hfail rest
      rcases hr : unmarshalValue d (wrapRaw rest innerRaw) (wrapT rest R)
          (structSlotGet v 0 (wrapT rest R)) with ⟨w, e2⟩
      have he2 : e2 = some e := by
        have h3 := ih (structSlotGet v 0 (wrapT rest R))
        rw [hr] at h3
        exact h3
      subst he2
      simp [decodeFields, setAtPath, List.lookup, List.find?, GoField.ftype, hr]
  | .elemStep :: rest, v => by
      rw [wrapRaw, wrapT]
      rw [unmarshalValue_slice_dispatch d (wrapT rest R) (.arr [wrapRaw rest innerRaw]) v rfl]
      rw [unmarshalSlice]
      have hw := containsStruct_wrapT rest R hcs
      have ih := wrap_error d R innerRaw e hcs hfail rest
      rcases hr : unmarshalValue d (wrapRaw rest innerRaw) (wrapT rest R)
          (zeroValue (wrapT rest R)) with ⟨w, e2⟩
      have he2 : e2 = some e := by
        have h3 := ih (zeroValue (wrapT rest R))
        rw [hr] at h3
        exact h3
      subst he2
      simp [hw, decodeElems, hr]
  | .valueStep k :: rest, v => by
      rw [wrapRaw, wrapT]
      rw [unmarshalValue_map_dispatch d (wrapT rest R) (.obj [(k, wrapRaw rest innerRaw)]) v rfl]
      have hw := containsStruct_wrapT rest R hcs
      have ih := wrap_error d R innerRaw e hcs hfail rest
      have hsub : ∀ m0, (decodeMapEntries d (wrapT rest R) [(k, wrapRaw rest innerRaw)] m0).2
          = some e := by
        intro m0
        rcases hr : unmarshalValue d (wrapRaw rest innerRaw) (wrapT rest R)
            (zeroValue (wrapT rest R)) with ⟨w, e2⟩
        have he2 : e2 = some e := by
          have h3 := ih (zeroValue (wrapT rest R))
          rw [hr] at h3
          exact h3
        subst he2
        simp [decodeMapEntries, hr]
      unfold unmarshalMap
      simp only [hw, Bool.not_true]
      exact hsub _

theorem find?_set_at (p : (String × Raw) → Bool) :
    ∀ (l : List (String × Raw)) (i : Nat) (x : String × Raw),
      i < l.length → (∀ y ∈ l.take i, p y = false) → p x = true →
      (l.set i x).find? p = some x
  | [], i, x, h, _, _ => absurd h (by simp)
  | y :: tl, 0, x, _, _, hx => by
      simp [List.set, List.find?, hx]
  | y :: tl, i + 1, x, h, hpre, hx => by
      have hy : p y = false := hpre y (by simp [List.take])
      simp only [List.set, List.find?_cons, hy]
      exact find?_set_at p tl i x (by simpa using h)
        (fun z hz => hpre z (by simp [List.take, hz])) hx

theorem strict_unknown_key (d : Decoder) (rname : String) (flds : List GoField)
    (entries1 : List (String × Raw)) (kflip : String) (r : Raw)
    (hdis : d.DisallowUnknownFields = true) (hsug : d.SuggestClosest = false)
    (hconf : (buildStructFields (.struct_ rname .noRecv flds)).conflict = "")
    (hfind : entries1.find? (fun p =>
        (((buildStructFields (.struct_ rname .noRecv flds)).fields).lookup p.1).isNone) =
        some (kflip, r)) :
    ∀ v, (unmarshalValue d (.obj entries1) (.struct_ rname .noRecv flds) v).2 =
      some (.unknownField kflip "") := by
  intro v
  rw [unmarshalValue_struct_noRecv d rname flds (.obj entries1) v rfl]
  rw [unmarshalStruct]
  simp only [getStructFields]
  rw [if_neg (by simp [hconf])]
  simp [hdis, hfind, hsug]

theorem buildStructFields_PersonT :
    buildStructFields (.struct_ "Person" .noRecv
        [("Name", "name", false, true, .prim "string"), ("Age", "age", false, true, .prim "int")]) =
      ⟨[("name", ⟨"name", [0]⟩), ("age", ⟨"age", [1]⟩)], ["name", "age"], ""⟩ := by
  simp [buildStructFields, bfsLoop, processScan, processField, endLevel, stripPtr,
    List.enum, List.enumFrom, goFieldName, parseTag, tagName,
    GoField.fanon, GoField.fexported, GoField.ftag, GoField.fname, GoField.ftype,
    assocErase, List.lookup, keysOf]

theorem buildStructFields_CaseTwinT :
    buildStructFields CaseTwinT =
      ⟨[("A", ⟨"A", [0]⟩), ("a", ⟨"a", [1]⟩)], ["A", "a"], ""⟩ := by
  simp [buildStructFields, bfsLoop, processScan, processField, endLevel, stripPtr,
    CaseTwinT, List.enum, List.enumFrom, goFieldName, parseTag, tagName,
    GoField.fanon, GoField.fexported, GoField.ftag, GoField.fname, GoField.ftype,
    assocErase, List.lookup, keysOf]

/-- C2 (amended): for every record type R (no conflicts) and every raw
object whose keys exactly equal R's resolved external names, changing
exactly one key's letter case - provided the changed key is not itself
another of R's resolved names - makes Decoder.Unmarshal with
reject-unknown-fields enabled fail with the unknown-or-miscased-field
error naming that key, at every nesting depth and through every mix of
object-field, array-element and map-value nesting steps. -/
theorem miscased_key_rejected_at_depth (steps : List NestStep) (rname : String)
    (flds : List GoField) (entries0 : List (String × Raw)) (i : Nat) (k kflip : String) (r : Raw)
    (hconf : (buildStructFields (.struct_ rname .noRecv flds)).conflict = "")
    (hperm : (entries0.map Prod.fst).Perm
      (buildStructFields (.struct_ rname .noRecv flds)).allNames)
    (hget : entries0.get? i = some (k, r))
    (hcase : goToLower kflip = goToLower k)
    (hnot : kflip ∉ (buildStructFields (.struct_ rname .noRecv flds)).allNames) :
    ∀ v, ((NewDecoder []).Unmarshal (wrapRaw steps (.obj (entries0.set i (kflip, r))))
      (.ptr (wrapT steps (.struct_ rname .noRecv flds))) (.vPtr (some v))).2 =
      some (.unknownField kflip "") := by
  intro v
  have hiff := (buildStructFields_inv (.struct_ rname .noRecv flds)).2.2
  have hlen : i < entries0.length := by
    by_contra hc
    rw [List.get?_eq_none.mpr (by omega)] at hget
    exact Option.noConfusion hget
  have hfind : (entries0.set i (kflip, r)).find? (fun p =>
      (((buildStructFields (.struct_ rname .noRecv flds)).fields).lookup p.1).isNone) =
      some (kflip, r) := by
    apply find?_set_at _ entries0 i (kflip, r) hlen
    · intro y hy
      have hmem : y.1 ∈ entries0.map Prod.fst :=
        List.mem_map_of_mem Prod.fst (List.mem_of_mem_take hy)
      have hall : y.1 ∈ (buildStructFields (.struct_ rname .noRecv flds)).allNames :=
        hperm.mem_iff.mp hmem
      have hsome := (hiff y.1).mp hall
      simp [Option.isNone, hsome]
      rcases hre : List.lookup y.1 (buildStructFields (.struct_ rname .noRecv flds)).fields with _ | w
      · rw [hre] at hsome
        simp at hsome
      · rfl
    · have : ¬(((buildStructFields (.struct_ rname .noRecv flds)).fields).lookup kflip).isSome :=
        fun hs => hnot ((hiff kflip).mpr hs)
      rcases hre : List.lookup kflip (buildStructFields (.struct_ rname .noRecv flds)).fields with _ | w
      · rfl
      · rw [hre] at this
        simp at this
  have hfail := strict_unknown_key (NewDecoder []) rname flds (entries0.set i (kflip, r))
    kflip r rfl rfl hconf hfind
  have hcs : containsStruct (.struct_ rname .noRecv flds) = true := by
    simp [containsStruct, implementsUnmarshaler]
  have hw := wrap_error (NewDecoder []) (.struct_ rname .noRecv flds)
    (.obj (entries0.set i (kflip, r))) (.unknownField kflip "") hcs hfail steps v
  rw [Decoder.Unmarshal]
  exact hw

/-- C2 (witness): the theorem applied at nesting depth 8 (object fields,
array elements and map values interleaved) around the Person record, with
key "name" miscased to "Name". -/
theorem miscased_key_rejected_at_depth_witness :
    ((NewDecoder []).Unmarshal
      (wrapRaw [.fieldStep "w1", .elemStep, .valueStep "m1", .fieldStep "w2",
                .elemStep, .valueStep "m2", .fieldStep "w3", .elemStep]
        (.obj [("Name", .rstr "J"), ("age", .rnum 30)]))
      (.ptr (wrapT [.fieldStep "w1", .elemStep, .valueStep "m1", .fieldStep "w2",
                .elemStep, .valueStep "m2", .fieldStep "w3", .elemStep]
        (.struct_ "Person" .noRecv
          [("Name", "name", false, true, .prim "string"),
           ("Age", "age", false, true, .prim "int")])))
      (.vPtr (some (.vStruct [])))).2 = some (.unknownField "Name" "") := by
  have h := miscased_key_rejected_at_depth
    [.fieldStep "w1", .elemStep, .valueStep "m1", .fieldStep "w2",
     .elemStep, .valueStep "m2", .fieldStep "w3", .elemStep]
    "Person"
    [("Name", "name", false, true, .prim "string"), ("Age", "age", false, true, .prim "int")]
    [("name", .rstr "J"), ("age", .rnum 30)] 0 "name" "Name" (.rstr "J")
    (by rw [buildStructFields_PersonT])
    (by rw [buildStructFields_PersonT]; simp)
    rfl
    (by decide)
    (by rw [buildStructFields_PersonT]; decide)
    (.vStruct [])
  simpa [List.set] using h

/-- C2 (counterexample): the claim as stated fails when the case-changed
key coincides with another resolved name.  CaseTwin resolves both "A" and
"a"; flipping the key "a" of an exactly-matching object to "A" yields an
object whose keys are all known, and decoding succeeds instead of
failing with an unknown-or-miscased-field error. -/
theorem miscased_key_case_collision_cx :
    (buildStructFields CaseTwinT).allNames = ["A", "a"] ∧
    goToLower "A" = goToLower "a" ∧
    ("A" : String) ≠ "a" ∧
    ((NewDecoder []).Unmarshal (.obj [("A", .rstr "x"), ("A", .rstr "y")]) (.ptr CaseTwinT)
      (.vPtr (some (zeroValue CaseTwinT)))).2 = none := by
  refine ⟨by rw [buildStructFields_CaseTwinT], by decide, by decide, ?_⟩
  simp [Unmarshal, Decoder.Unmarshal, NewDecoder, unmarshalValue, unmarshalStruct,
    unmarshalSlice, unmarshalMap, decodeFields, decodeElems, decodeMapEntries, setAtPath,
    getStructFields, buildStructFields, bfsLoop, processScan, processField, endLevel,
    stripPtr, implementsUnmarshaler, containsStruct, allocDescend, rewrapPtr, zeroValue,
    zeroFields, structSlotGet, structSlotSet, decodePrimStep, primCompat, Raw.isNull,
    goFieldName, parseTag, tagName, GoField.fanon, GoField.fexported, GoField.ftag,
    GoField.fname, GoField.ftype, List.enum, List.enumFrom, List.lookup, List.find?,
    keysOf, assocErase, CaseTwinT, findSuggestion]

theorem decodeFields_append_fail (d : Decoder) (t : GoType) (sf : StructFields)
    (es2 : List (String × Raw)) (k : String) (r : Raw) (fi : FieldInfo)
    (v2 : GoValue) (e : DErr) :
    ∀ (es1 : List (String × Raw)) (v v1 : GoValue),
    decodeFields d t sf es1 v = (v1, none) →
    sf.fields.lookup k = some fi →
    setAtPath d r t v1 fi.fieldIndex = (v2, some e) →
    decodeFields d t sf (es1 ++ (k, r) :: es2) v = (v2, some e)
  | [], v, v1, h1, h2, h3 => by
      rw [decodeFields] at h1
      have hv : v = v1 := congrArg Prod.fst h1
      subst hv
      rw [List.nil_append]
      simp [decodeFields, h2, h3]
  | (k0, r0) :: es1, v, v1, h1, h2, h3 => by
      rw [List.cons_append]
      rcases hl : sf.fields.lookup k0 with _ | fi0
      · simp only [decodeFields, hl] at h1 ⊢
        exact decodeFields_append_fail d t sf es2 k r fi v2 e es1 v v1 h1 h2 h3
      · simp only [decodeFields, hl] at h1 ⊢
        rcases hsp : setAtPath d r0 t v fi0.fieldIndex with ⟨w0, e0⟩
        simp only [hsp] at h1 ⊢
        rcases e0 with _ | e0
        · simp only at h1 ⊢
          exact decodeFields_append_fail d t sf es2 k r fi v2 e es1 w0 v1 h1 h2 h3
        · simp at h1

/-- C9: when a decode fails partway through, the error is returned
without rolling back: if the earlier keys of the object decoded
successfully (mutating the target to v1) and the next key's recursive
decode fails, the whole loop - and unmarshalStruct itself, when the
type has no conflict and every key is known - returns the failing
call's error together with the value holding all earlier writes; the
remaining keys are not processed and nothing is restored. -/
theorem partial_writes_retained_on_failure :
    (∀ (d : Decoder) (t : GoType) (sf : StructFields) (es1 es2 : List (String × Raw))
       (k : String) (r : Raw) (fi : FieldInfo) (v v1 v2 : GoValue) (e : DErr),
      decodeFields d t sf es1 v = (v1, none) →
      sf.fields.lookup k = some fi →
      setAtPath d r t v1 fi.fieldIndex = (v2, some e) →
      decodeFields d t sf (es1 ++ (k, r) :: es2) v = (v2, some e)) ∧
    (∀ (d : Decoder) (t : GoType) (es1 es2 : List (String × Raw)) (k : String) (r : Raw)
       (fi : FieldInfo) (v v1 v2 : GoValue) (e : DErr),
      (buildStructFields t).conflict = "" →
      ((es1 ++ (k, r) :: es2).find? (fun p =>
        (((buildStructFields t).fields).lookup p.1).isNone)) = none →
      decodeFields d t (buildStructFields t) es1 v = (v1, none) →
      ((buildStructFields t).fields).lookup k = some fi →
      setAtPath d r t v1 fi.fieldIndex = (v2, some e) →
      unmarshalStruct d (.obj (es1 ++ (k, r) :: es2)) t v = (v2, some e)) := by
  constructor
  · intro d t sf es1 es2 k r fi v v1 v2 e h1 h2 h3
    exact decodeFields_append_fail d t sf es2 k r fi v2 e es1 v v1 h1 h2 h3
  · intro d t es1 es2 k r fi v v1 v2 e hconf hfind h1 h2 h3
    rw [unmarshalStruct]
    simp only [getStructFields]
    rw [if_neg (by simp [hconf])]
    dsimp only
    have hd := decodeFields_append_fail d t (buildStructFields t) es2 k r fi v2 e es1 v v1 h1 h2 h3
    split
    · rw [hfind]
      exact hd
    · exact hd

/-- C9 (witness): a two-field record whose first key decodes and whose
second key fails; the returned value retains the first field's write. -/
theorem partial_writes_retained_on_failure_witness :
    unmarshalStruct (NewDecoder []) (.obj [("name", .rstr "J"), ("age", .rstr "oops")])
      (.struct_ "Person" .noRecv
        [("Name", "name", false, true, .prim "string"), ("Age", "age", false, true, .prim "int")])
      (zeroValue (.struct_ "Person" .noRecv
        [("Name", "name", false, true, .prim "string"), ("Age", "age", false, true, .prim "int")])) =
      (.vStruct [.vPrim (some (.rstr "J")), .vPrim none], some .jsonError) := by
  have h := partial_writes_retained_on_failure.2 (NewDecoder [])
    (.struct_ "Person" .noRecv
      [("Name", "name", false, true, .prim "string"), ("Age", "age", false, true, .prim "int")])
    [("name", .rstr "J")] [] "age" (.rstr "oops") ⟨"age", [1]⟩
    (zeroValue (.struct_ "Person" .noRecv
      [("Name", "name", false, true, .prim "string"), ("Age", "age", false, true, .prim "int")]))
    (.vStruct [.vPrim (some (.rstr "J")), .vPrim none])
    (.vStruct [.vPrim (some (.rstr "J")), .vPrim none]) .jsonError
    (by rw [buildStructFields_PersonT])
    (by rw [buildStructFields_PersonT]; simp [List.find?, List.lookup])
    (by simp [buildStructFields_PersonT, decodeFields, setAtPath, List.lookup, unmarshalValue,
        Raw.isNull, implementsUnmarshaler, stripPtr, allocDescend, rewrapPtr, zeroValue,
        zeroFields, structSlotGet, structSlotSet, decodePrimStep, primCompat, GoField.ftype])
    (by rw [buildStructFields_PersonT]; simp [List.lookup])
    (by simp [setAtPath, unmarshalValue, Raw.isNull, implementsUnmarshaler, stripPtr,
        allocDescend, rewrapPtr, zeroValue, zeroFields, structSlotGet, structSlotSet,
        decodePrimStep, primCompat, GoField.ftype])
  exact h


end StrictJson
namespace StrictJson

theorem structFree_not_containsStruct : ∀ t : GoType, structFree t = true →
    containsStruct t = false
  | .prim _, _ => by rw [containsStruct]
  | .struct_ n r fs, h => by rw [structFree] at h; exact Bool.noConfusion h
  | .slice te, h => by
      rw [structFree] at h
      rw [containsStruct]
      exact structFree_not_containsStruct te h
  | .map_ te, h => by
      rw [structFree] at h
      rw [containsStruct]
      exact structFree_not_containsStruct te h
  | .ptr te, h => by
      rw [structFree] at h
      rw [containsStruct]
      exact structFree_not_containsStruct te h

theorem structFree_not_unmarshaler : ∀ t : GoType, structFree t = true →
    implementsUnmarshaler (.ptr t) = false
  | .prim _, _ => by rfl
  | .struct_ n r fs, h => by rw [structFree] at h; exact Bool.noConfusion h
  | .slice te, _ => by rfl
  | .map_ te, _ => by rfl
  | .ptr te, _ => by rfl

theorem allocDescend_ptr (te : GoType) (v : GoValue) :
    allocDescend (.ptr te) v =
      allocDescend te (match v with | .vPtr (some u) => u | _ => zeroValue te) := by
  rcases v with _ | _ | _ | _ | p | _
  case vPtr => rcases p with _ | u <;> simp [allocDescend]
  all_goals simp [allocDescend]

theorem jsonUnmarshal_null (t : GoType) (v : GoValue) : jsonUnmarshal .null t v = (v, none) := by
  rw [jsonUnmarshal.eq_def]
  simp [Raw.isNull]

theorem strict_eq_json_structFree : ∀ (t : GoType), structFree t = true →
    ∀ (d : Decoder) (data : Raw) (v : GoValue),
    unmarshalValue d data t v = jsonUnmarshal data t v
  | .prim p, h, d, data, v => by
      rcases hn : data.isNull with _ | _
      · rw [unmarshalValue, jsonUnmarshal]
        simp [hn, implementsUnmarshaler, stripPtr, allocDescend, rewrapPtr]
      · simp [unmarshalValue, jsonUnmarshal, hn]
  | .struct_ n r fs, h, d, data, v => by
      rw [structFree] at h
      exact Bool.noConfusion h
  | .slice te, h, d, data, v => by
      rw [structFree] at h
      have hcs := structFree_not_containsStruct te h
      rcases hn : data.isNull with _ | _
      · rw [unmarshalValue]
        simp only [hn, Bool.false_eq_true, if_false, implementsUnmarshaler, bne_self_eq_false,
          stripPtr, allocDescend, rewrapPtr]
        rcases data with _ | b | m | s2 | elems | entries
        · simp [Raw.isNull] at hn
        · simp [unmarshalSlice, jsonUnmarshal, Raw.isNull, implementsUnmarshaler]
        · simp [unmarshalSlice, jsonUnmarshal, Raw.isNull, implementsUnmarshaler]
        · simp [unmarshalSlice, jsonUnmarshal, Raw.isNull, implementsUnmarshaler]
        · rw [unmarshalSlice]
          simp [hcs]
        · simp [unmarshalSlice, jsonUnmarshal, Raw.isNull, implementsUnmarshaler]
      · have hd : data = .null := by rcases data <;> simp_all [Raw.isNull]
        subst hd
        rw [unmarshalValue, jsonUnmarshal_null]
        simp [Raw.isNull]
  | .map_ te, h, d, data, v => by
      rw [structFree] at h
      have hcs := structFree_not_containsStruct te h
      rcases hn : data.isNull with _ | _
      · rw [unmarshalValue]
        simp only [hn, Bool.false_eq_true, if_false, implementsUnmarshaler, bne_self_eq_false,
          stripPtr, allocDescend, rewrapPtr]
        rcases data with _ | b | m | s2 | elems | entries
        · simp [Raw.isNull] at hn
        · simp [unmarshalMap, jsonUnmarshal, Raw.isNull, implementsUnmarshaler]
        · simp [unmarshalMap, jsonUnmarshal, Raw.isNull, implementsUnmarshaler]
        · simp [unmarshalMap, jsonUnmarshal, Raw.isNull, implementsUnmarshaler]
        · simp [unmarshalMap, jsonUnmarshal, Raw.isNull, implementsUnmarshaler]
        · unfold unmarshalMap
          simp [hcs]
      · have hd : data = .null := by rcases data <;> simp_all [Raw.isNull]
        subst hd
        rw [unmarshalValue, jsonUnmarshal_null]
        simp [Raw.isNull]
  | .ptr te, h, d, data, v => by
      rw [structFree] at h
      rcases hn : data.isNull with _ | _
      · have hcu := structFree_not_unmarshaler te h
        have hc2 : implementsUnmarshaler (GoType.ptr (GoType.ptr te)) = false := rfl
        rcases v with _ | _ | _ | _ | (_ | u) | _ <;>
          (rw [unmarshalValue, jsonUnmarshal]
           simp only [hn, hc2, Bool.false_eq_true, if_false]
           simp only [← strict_eq_json_structFree te h d]
           rw [unmarshalValue]
           simp [hn, hcu, allocDescend, stripPtr, rewrapPtr]
           all_goals intro _ hx
           all_goals simp at hx)
      · have hd : data = .null := by rcases data <;> simp_all [Raw.isNull]
        subst hd
        rw [unmarshalValue, jsonUnmarshal_null]
        simp [Raw.isNull]

end StrictJson

namespace StrictJson

theorem processField_next_noanon (index : List Nat) (st : BuildState) (p : Nat × GoField)
    (h : p.2.fanon = false) : (processField index st p).next = st.next := by
  unfold processField
  dsimp only
  rw [if_neg (by simp [h])]
  repeat' split
  all_goals rfl

theorem foldl_processField_next_noanon (index : List Nat) :
    ∀ (l : List (Nat × GoField)) (st : BuildState),
    (∀ p ∈ l, (p.2 : GoField).fanon = false) →
    ((l.foldl (processField index) st)).next = st.next
  | [], st, _ => rfl
  | p :: rest, st, h => by
      rw [List.foldl_cons]
      rw [foldl_processField_next_noanon index rest _ (fun q hq => h q (List.mem_cons_of_mem p hq))]
      exact processField_next_noanon index st p (h p (List.mem_cons_self p rest))

theorem enumFrom_anon : ∀ (fs2 : List GoField) (m : Nat),
    (∀ f ∈ fs2, GoField.fanon f = false) →
    ∀ p ∈ fs2.enumFrom m, (p.2 : GoField).fanon = false
  | [], _, _, p, hp => by simp [List.enumFrom] at hp
  | f :: fs, m, h, p, hp => by
      rw [List.enumFrom] at hp
      rcases List.mem_cons.mp hp with he | he
      · subst he
        exact h f (List.mem_cons_self f fs)
      · exact enumFrom_anon fs (m + 1) (fun q hq => h q (List.mem_cons_of_mem f hq)) p he

theorem processField_fields_cases (st : BuildState) (p : Nat × GoField) :
    (processField [] st p).fields = st.fields ∨
    (processField [] st p).fields = assocErase (goFieldName p.2) st.fields ∨
    (processField [] st p).fields =
      st.fields ++ [(goFieldName p.2, ⟨goFieldName p.2, [p.1]⟩)] := by
  unfold processField
  dsimp only
  repeat' split
  all_goals simp

theorem lookup_mem_fi : ∀ (l : List (String × FieldInfo)) (k : String) (v : FieldInfo),
    l.lookup k = some v → (k, v) ∈ l
  | [], k, v, h => by simp [List.lookup] at h
  | (a, b) :: rest, k, v, h => by
      by_cases hk : k = a
      · subst hk
        simp [List.lookup] at h
        subst h
        exact List.mem_cons_self _ _
      · have hb : (k == a) = false := beq_eq_false_iff_ne.mpr hk
        rw [List.lookup, hb] at h
        exact List.mem_cons_of_mem _ (lookup_mem_fi rest k v h)

theorem level0_chars : ∀ (fs2 : List GoField) (m : Nat) (st : BuildState),
    (∀ pr ∈ st.fields, (pr.2 : FieldInfo).jsonName = pr.1 ∧
      ∃ i, (pr.2 : FieldInfo).fieldIndex = [i] ∧ i < m) →
    (∀ pr1 ∈ st.fields, ∀ pr2 ∈ st.fields,
      (pr1.2 : FieldInfo).fieldIndex = (pr2.2 : FieldInfo).fieldIndex → pr1 = pr2) →
    ((∀ pr ∈ ((fs2.enumFrom m).foldl (processField []) st).fields,
        (pr.2 : FieldInfo).jsonName = pr.1 ∧
        ∃ i, (pr.2 : FieldInfo).fieldIndex = [i] ∧ i < m + fs2.length) ∧
     (∀ pr1 ∈ ((fs2.enumFrom m).foldl (processField []) st).fields,
      ∀ pr2 ∈ ((fs2.enumFrom m).foldl (processField []) st).fields,
      (pr1.2 : FieldInfo).fieldIndex = (pr2.2 : FieldInfo).fieldIndex → pr1 = pr2))
  | [], m, st, hpre, hinj => by
      rw [List.enumFrom]
      refine ⟨fun pr hpr => ?_, hinj⟩
      obtain ⟨h1, i, h2, h3⟩ := hpre pr hpr
      exact ⟨h1, i, h2, by simpa using Nat.lt_of_lt_of_le h3 (Nat.le_refl m)⟩
  | f :: fs, m, st, hpre, hinj => by
      rw [List.enumFrom, List.foldl_cons]
      have hstep := processField_fields_cases st (m, f)
      have hnext : ∀ pr ∈ (processField [] st (m, f)).fields,
          (pr.2 : FieldInfo).jsonName = pr.1 ∧
          ∃ i, (pr.2 : FieldInfo).fieldIndex = [i] ∧ i < m + 1 := by
        rcases hstep with he | he | he <;> rw [he]
        · intro pr hpr
          obtain ⟨h1, i, h2, h3⟩ := hpre pr hpr
          exact ⟨h1, i, h2, by omega⟩
        · intro pr hpr
          obtain ⟨h1, i, h2, h3⟩ := hpre pr (List.mem_of_mem_filter hpr)
          exact ⟨h1, i, h2, by omega⟩
        · intro pr hpr
          rcases List.mem_append.mp hpr with hm | hm
          · obtain ⟨h1, i, h2, h3⟩ := hpre pr hm
            exact ⟨h1, i, h2, by omega⟩
          · simp at hm
            subst hm
            exact ⟨rfl, m, rfl, by omega⟩
      have hnextinj : ∀ pr1 ∈ (processField [] st (m, f)).fields,
          ∀ pr2 ∈ (processField [] st (m, f)).fields,
          (pr1.2 : FieldInfo).fieldIndex = (pr2.2 : FieldInfo).fieldIndex → pr1 = pr2 := by
        rcases hstep with he | he | he <;> rw [he]
        · exact hinj
        · intro pr1 h1 pr2 h2 hi
          exact hinj pr1 (List.mem_of_mem_filter h1) pr2 (List.mem_of_mem_filter h2) hi
        · intro pr1 h1 pr2 h2 hi
          rcases List.mem_append.mp h1 with hm1 | hm1 <;>
            rcases List.mem_append.mp h2 with hm2 | hm2
          · exact hinj pr1 hm1 pr2 hm2 hi
          · obtain ⟨_, i, hidx, hilt⟩ := hpre pr1 hm1
            simp at hm2
            rw [hm2] at hi
            rw [hidx] at hi
            simp at hi
            omega
          · obtain ⟨_, i, hidx, hilt⟩ := hpre pr2 hm2
            simp at hm1
            rw [hm1] at hi
            rw [hidx] at hi
            simp at hi
            omega
          · simp at hm1 hm2
            rw [hm1, hm2]
      have hrec := level0_chars fs (m + 1) (processField [] st (m, f)) hnext hnextinj
      refine ⟨fun pr hpr => ?_, hrec.2⟩
      obtain ⟨h1, i, h2, h3⟩ := hrec.1 pr hpr
      exact ⟨h1, i, h2, by simp only [List.length_cons]; omega⟩

theorem processField_allNames (index : List Nat) (st : BuildState) (p : Nat × GoField) :
    (processField index st p).allNames = st.allNames := by
  unfold processField
  dsimp only
  repeat' split
  all_goals rfl

theorem foldl_processField_allNames (index : List Nat) :
    ∀ (l : List (Nat × GoField)) (st : BuildState),
    ((l.foldl (processField index) st)).allNames = st.allNames
  | [], st => rfl
  | p :: rest, st => by
      rw [List.foldl_cons, foldl_processField_allNames index rest _, processField_allNames]

theorem buildStructFields_noanon (rname : String) (recv : Recv) (flds : List GoField)
    (hanon : ∀ f ∈ flds, GoField.fanon f = false) :
    buildStructFields (.struct_ rname recv flds) =
      ⟨(level0St rname flds).fields,
       (level0St rname flds).found.filter
         (fun n => ((level0St rname flds).fields.lookup n).isSome),
       (level0St rname flds).conflict⟩ := by
  have hscan : processScan ⟨[], [], "", [], [], []⟩ ⟨.struct_ rname recv flds, []⟩ =
      level0St rname flds := by
    simp [processScan, stripPtr, List.enum, level0St]
  have hnext : (level0St rname flds).next = [] := by
    rw [level0St,
      foldl_processField_next_noanon [] (flds.enumFrom 0) _ (enumFrom_anon flds 0 hanon)]
  have hloop : bfsLoop ⟨[], [], "", [], [], []⟩ [⟨.struct_ rname recv flds, []⟩] =
      { endLevel (level0St rname flds) with next := [] } := by
    rw [bfsLoop]
    rw [List.foldl_cons, List.foldl_nil]
    have hst : ({ (⟨[], [], "", [], [], []⟩ : BuildState) with found := [], next := [] }) =
        (⟨[], [], "", [], [], []⟩ : BuildState) := rfl
    rw [hst, hscan, hnext, bfsLoop]
  have hall : (level0St rname flds).allNames = [] := by
    rw [level0St, foldl_processField_allNames]
  rw [buildStructFields]
  rw [hloop]
  simp [endLevel, hall]

theorem buildStructFields_fields_char (rname : String) (recv : Recv) (flds : List GoField)
    (hanon : ∀ f ∈ flds, GoField.fanon f = false) :
    (∀ pr ∈ (buildStructFields (.struct_ rname recv flds)).fields,
        (pr.2 : FieldInfo).jsonName = pr.1 ∧
        ∃ i, (pr.2 : FieldInfo).fieldIndex = [i] ∧ i < flds.length) ∧
    (∀ pr1 ∈ (buildStructFields (.struct_ rname recv flds)).fields,
     ∀ pr2 ∈ (buildStructFields (.struct_ rname recv flds)).fields,
     (pr1.2 : FieldInfo).fieldIndex = (pr2.2 : FieldInfo).fieldIndex → pr1 = pr2) := by
  rw [buildStructFields_noanon rname recv flds hanon]
  simp only [level0St]
  have hc := level0_chars flds 0 ⟨[], [], "", [rname], [], []⟩ (by simp) (by simp)
  constructor
  · intro pr hpr
    obtain ⟨h1, i, h2, h3⟩ := hc.1 pr hpr
    exact ⟨h1, i, h2, by omega⟩
  · exact hc.2

theorem zeroFields_length : ∀ (flds : List GoField), (zeroFields flds).length = flds.length
  | [] => rfl
  | (_, _, _, _, t) :: fs => by
      rw [zeroFields, List.length_cons, List.length_cons, zeroFields_length fs]

theorem zeroFields_get? : ∀ (flds : List GoField) (i : Nat),
    (zeroFields flds).get? i = (flds.get? i).map (fun f => zeroValue (GoField.ftype f))
  | [], i => by rw [zeroFields]; simp
  | (a, b, c, e, t) :: fs, 0 => by rw [zeroFields]; simp [GoField.ftype]
  | (a, b, c, e, t) :: fs, i + 1 => by
      rw [zeroFields]
      simp only [List.get?]
      exact zeroFields_get? fs i

theorem decodeFields_exact (d : Decoder) (rname : String) (recv : Recv) (flds : List GoField)
    (sf : StructFields) :
    ∀ (es : List (String × Raw)) (vs : List GoValue),
    vs.length = flds.length →
    (es.map Prod.fst).Nodup →
    (∀ p ∈ es, ∃ i, sf.fields.lookup p.1 = some ⟨p.1, [i]⟩ ∧ i < flds.length) →
    (∀ p1 ∈ es, ∀ p2 ∈ es, ∀ i1 i2, sf.fields.lookup p1.1 = some ⟨p1.1, [i1]⟩ →
        sf.fields.lookup p2.1 = some ⟨p2.1, [i2]⟩ → i1 = i2 → p1.1 = p2.1) →
    (∀ p ∈ es, ∀ i, sf.fields.lookup p.1 = some ⟨p.1, [i]⟩ →
        vs.get? i = some (zeroValue (fieldTypeAt flds i))) →
    (∀ p ∈ es, ∀ i, sf.fields.lookup p.1 = some ⟨p.1, [i]⟩ →
        (unmarshalValue d p.2 (fieldTypeAt flds i) (zeroValue (fieldTypeAt flds i))).2 = none) →
    ∃ vs2, decodeFields d (.struct_ rname recv flds) sf es (.vStruct vs) =
        (.vStruct vs2, none) ∧
      vs2.length = flds.length ∧
      (∀ p ∈ es, ∀ i, sf.fields.lookup p.1 = some ⟨p.1, [i]⟩ →
        vs2.get? i = some ((unmarshalValue d p.2 (fieldTypeAt flds i)
          (zeroValue (fieldTypeAt flds i))).1)) ∧
      (∀ j, (∀ p ∈ es, ∀ i, sf.fields.lookup p.1 = some ⟨p.1, [i]⟩ → i ≠ j) →
        vs2.get? j = vs.get? j) := by
  intro es
  induction es with
  | nil =>
      intro vs hlen _ _ _ _ _
      refine ⟨vs, ?_, hlen, by simp, fun j _ => rfl⟩
      rw [decodeFields]
  | cons hd rest ih =>
      obtain ⟨k, r⟩ := hd
      intro vs hlen hnd htar hinj hzero hok
      obtain ⟨i, hlk, hilt⟩ := htar (k, r) (List.mem_cons_self _ _)
      have hfex : ∃ f, flds.get? i = some f := by
        rcases h : flds.get? i with _ | f
        · rw [List.get?_eq_none] at h
          omega
        · exact ⟨f, rfl⟩
      obtain ⟨f, hf⟩ := hfex
      have hft : fieldTypeAt flds i = GoField.ftype f := by
        unfold fieldTypeAt
        rw [hf]
      have hzi : vs.get? i = some (zeroValue (GoField.ftype f)) := by
        rw [← hft]
        exact hzero (k, r) (List.mem_cons_self _ _) i hlk
      have hoki : (unmarshalValue d r (GoField.ftype f) (zeroValue (GoField.ftype f))).2 =
          none := by
        rw [← hft]
        exact hok (k, r) (List.mem_cons_self _ _) i hlk
      have hslot : structSlotGet (.vStruct vs) i (GoField.ftype f) =
          zeroValue (GoField.ftype f) := by
        simp only [structSlotGet]
        rw [List.getD_eq_getElem?_getD, ← List.get?_eq_getElem?, hzi]
        rfl
      have hset : setAtPath d r (.struct_ rname recv flds) (.vStruct vs) [i] =
          ((.vStruct (vs.set i (unmarshalValue d r (GoField.ftype f)
             (zeroValue (GoField.ftype f))).1) : GoValue),
           (unmarshalValue d r (GoField.ftype f) (zeroValue (GoField.ftype f))).2) := by
        rw [setAtPath]
        rw [hf]
        dsimp only
        rw [hslot]
        rw [setAtPath]
        simp only [structSlotSet]
      have hdc : decodeFields d (.struct_ rname recv flds) sf ((k, r) :: rest) (.vStruct vs) =
          decodeFields d (.struct_ rname recv flds) sf rest
            (.vStruct (vs.set i (unmarshalValue d r (GoField.ftype f)
              (zeroValue (GoField.ftype f))).1)) := by
        rw [decodeFields]
        rw [hlk]
        dsimp only
        rw [hset]
        dsimp only
        rw [hoki]
      have hknotin : k ∉ rest.map Prod.fst := by
        simp only [List.map_cons, List.nodup_cons] at hnd
        exact hnd.1
      have hndrest : (rest.map Prod.fst).Nodup := by
        simp only [List.map_cons, List.nodup_cons] at hnd
        exact hnd.2
      have hine : ∀ p ∈ rest, ∀ i2, sf.fields.lookup p.1 = some ⟨p.1, [i2]⟩ → i2 ≠ i := by
        intro p hp i2 hlp he
        have hpk : p.1 = k := hinj p (List.mem_cons_of_mem _ hp) (k, r)
          (List.mem_cons_self _ _) i2 i hlp hlk he
        exact hknotin (hpk ▸ List.mem_map_of_mem Prod.fst hp)
      obtain ⟨vs2, hdec2, hlen2, hval2, hother2⟩ := ih
        (vs.set i (unmarshalValue d r (GoField.ftype f) (zeroValue (GoField.ftype f))).1)
        (by rw [List.length_set]; exact hlen)
        hndrest
        (fun p hp => htar p (List.mem_cons_of_mem _ hp))
        (fun p1 h1 p2 h2 => hinj p1 (List.mem_cons_of_mem _ h1) p2 (List.mem_cons_of_mem _ h2))
        (fun p hp i2 hlp => by
          rw [List.get?_set_ne _ _ (hine p hp i2 hlp).symm]
          exact hzero p (List.mem_cons_of_mem _ hp) i2 hlp)
        (fun p hp i2 hlp => hok p (List.mem_cons_of_mem _ hp) i2 hlp)
      refine ⟨vs2, ?_, hlen2, ?_, ?_⟩
      · rw [hdc]
        exact hdec2
      · intro p hp i2 hlp
        rcases List.mem_cons.mp hp with he | he
        · subst he
          have hlp2 : sf.fields.lookup k = some ⟨k, [i2]⟩ := hlp
          have hi2 : i2 = i := by
            have hh := hlp2.symm.trans hlk
            simp only [Option.some.injEq, FieldInfo.mk.injEq, List.cons.injEq] at hh
            exact hh.2.1
          subst hi2
          have hvi : vs2.get? i2 =
              (vs.set i2 (unmarshalValue d r (GoField.ftype f)
                (zeroValue (GoField.ftype f))).1).get? i2 :=
            hother2 i2 hine
          rw [hvi, List.get?_set_eq_of_lt _ (by rw [hlen]; exact hilt)]
          show _ = some ((unmarshalValue d r (fieldTypeAt flds i2)
            (zeroValue (fieldTypeAt flds i2))).1)
          rw [hft]
        · exact hval2 p he i2 hlp
      · intro j hj
        have hjne : i ≠ j := hj (k, r) (List.mem_cons_self _ _) i hlk
        rw [hother2 j (fun p hp i2 hlp => hj p (List.mem_cons_of_mem _ hp) i2 hlp)]
        exact List.get?_set_ne _ _ hjne


end StrictJson


namespace StrictJson

theorem anonChainTo_one (t : GoType) (i : Nat) (f : GoField)
    (h : anonChainTo t [i] = some f) :
    ∃ n rv fs, (t = .struct_ n rv fs ∨ t = .ptr (.struct_ n rv fs)) ∧ fs.get? i = some f := by
  rcases t with _ | ⟨n, rv, fs⟩ | _ | _ | te
  · simp [anonChainTo] at h
  · exact ⟨n, rv, fs, Or.inl rfl, by simpa [anonChainTo] using h⟩
  · simp [anonChainTo] at h
  · simp [anonChainTo] at h
  · rcases te with _ | ⟨n, rv, fs⟩ | _ | _ | _
    · simp [anonChainTo] at h
    · exact ⟨n, rv, fs, Or.inr rfl, by simpa [anonChainTo] using h⟩
    · simp [anonChainTo] at h
    · simp [anonChainTo] at h
    · simp [anonChainTo] at h

theorem anonChainTo_one_mk (t : GoType) (n : String) (rv : Recv)
    (fs : List (String × String × Bool × Bool × GoType)) (i : Nat) (f : GoField)
    (hsh : t = .struct_ n rv fs ∨ t = .ptr (.struct_ n rv fs)) (hf : fs.get? i = some f) :
    anonChainTo t [i] = some f := by
  rcases hsh with h | h <;> subst h <;> simpa [anonChainTo] using hf

theorem anonChainTo_cons2 (t : GoType) (i r1 : Nat) (r2 : List Nat) (f : GoField)
    (h : anonChainTo t (i :: r1 :: r2) = some f) :
    ∃ n rv fs f0, (t = .struct_ n rv fs ∨ t = .ptr (.struct_ n rv fs)) ∧
      fs.get? i = some f0 ∧ GoField.fanon f0 = true ∧
      anonChainTo (GoField.ftype f0) (r1 :: r2) = some f := by
  rcases t with _ | ⟨n, rv, fs⟩ | _ | _ | te
  · simp [anonChainTo] at h
  · rw [anonChainTo] at h
    rcases hf0 : fs.get? i with _ | f0
    · rw [hf0] at h
      simp at h
    · rw [hf0] at h
      dsimp at h
      by_cases ha : GoField.fanon f0
      · rw [if_pos ha] at h
        exact ⟨n, rv, fs, f0, Or.inl rfl, hf0, ha, h⟩
      · rw [if_neg ha] at h
        simp at h
  · simp [anonChainTo] at h
  · simp [anonChainTo] at h
  · rcases te with _ | ⟨n, rv, fs⟩ | _ | _ | _
    · simp [anonChainTo] at h
    · rw [anonChainTo] at h
      rcases hf0 : fs.get? i with _ | f0
      · rw [hf0] at h
        simp at h
      · rw [hf0] at h
        dsimp at h
        by_cases ha : GoField.fanon f0
        · rw [if_pos ha] at h
          exact ⟨n, rv, fs, f0, Or.inr rfl, hf0, ha, h⟩
        · rw [if_neg ha] at h
          simp at h
    · simp [anonChainTo] at h
    · simp [anonChainTo] at h
    · simp [anonChainTo] at h

theorem anonChainTo_cons2_mk (t : GoType) (n : String) (rv : Recv)
    (fs : List (String × String × Bool × Bool × GoType)) (i r1 : Nat) (r2 : List Nat)
    (f0 f : GoField)
    (hsh : t = .struct_ n rv fs ∨ t = .ptr (.struct_ n rv fs)) (hf0 : fs.get? i = some f0)
    (ha : GoField.fanon f0 = true) (hrec : anonChainTo (GoField.ftype f0) (r1 :: r2) = some f) :
    anonChainTo t (i :: r1 :: r2) = some f := by
  rcases hsh with h | h <;> subst h <;> rw [anonChainTo, hf0] <;> simpa [ha] using hrec

theorem fieldAtPath_one (t : GoType) (i : Nat) (f : GoField)
    (h : fieldAtPath t [i] = some f) :
    ∃ n rv fs, (t = .struct_ n rv fs ∨ t = .ptr (.struct_ n rv fs)) ∧ fs.get? i = some f := by
  rcases t with _ | ⟨n, rv, fs⟩ | _ | _ | te
  · simp [fieldAtPath] at h
  · exact ⟨n, rv, fs, Or.inl rfl, by simpa [fieldAtPath] using h⟩
  · simp [fieldAtPath] at h
  · simp [fieldAtPath] at h
  · rcases te with _ | ⟨n, rv, fs⟩ | _ | _ | _
    · simp [fieldAtPath] at h
    · exact ⟨n, rv, fs, Or.inr rfl, by simpa [fieldAtPath] using h⟩
    · simp [fieldAtPath] at h
    · simp [fieldAtPath] at h
    · simp [fieldAtPath] at h

theorem fieldAtPath_one_mk (t : GoType) (n : String) (rv : Recv)
    (fs : List (String × String × Bool × Bool × GoType)) (i : Nat) (f : GoField)
    (hsh : t = .struct_ n rv fs ∨ t = .ptr (.struct_ n rv fs)) (hf : fs.get? i = some f) :
    fieldAtPath t [i] = some f := by
  rcases hsh with h | h <;> subst h <;> simpa [fieldAtPath] using hf

theorem fieldAtPath_cons2 (t : GoType) (i r1 : Nat) (r2 : List Nat) (f : GoField)
    (h : fieldAtPath t (i :: r1 :: r2) = some f) :
    ∃ n rv fs f0, (t = .struct_ n rv fs ∨ t = .ptr (.struct_ n rv fs)) ∧
      fs.get? i = some f0 ∧ fieldAtPath (GoField.ftype f0) (r1 :: r2) = some f := by
  rcases t with _ | ⟨n, rv, fs⟩ | _ | _ | te
  · simp [fieldAtPath] at h
  · rw [fieldAtPath] at h
    rcases hf0 : fs.get? i with _ | f0
    · rw [hf0] at h
      simp at h
    · rw [hf0] at h
      dsimp at h
      exact ⟨n, rv, fs, f0, Or.inl rfl, hf0, h⟩
  · simp [fieldAtPath] at h
  · simp [fieldAtPath] at h
  · rcases te with _ | ⟨n, rv, fs⟩ | _ | _ | _
    · simp [fieldAtPath] at h
    · rw [fieldAtPath] at h
      rcases hf0 : fs.get? i with _ | f0
      · rw [hf0] at h
        simp at h
      · rw [hf0] at h
        dsimp at h
        exact ⟨n, rv, fs, f0, Or.inr rfl, hf0, h⟩
    · simp [fieldAtPath] at h
    · simp [fieldAtPath] at h
    · simp [fieldAtPath] at h

theorem fieldAtPath_cons2_mk (t : GoType) (n : String) (rv : Recv)
    (fs : List (String × String × Bool × Bool × GoType)) (i r1 : Nat) (r2 : List Nat)
    (f0 f : GoField)
    (hsh : t = .struct_ n rv fs ∨ t = .ptr (.struct_ n rv fs)) (hf0 : fs.get? i = some f0)
    (hrec : fieldAtPath (GoField.ftype f0) (r1 :: r2) = some f) :
    fieldAtPath t (i :: r1 :: r2) = some f := by
  rcases hsh with h | h <;> subst h <;> rw [fieldAtPath, hf0] <;> simpa using hrec

theorem anonChainTo_fieldAtPath : ∀ (p : List Nat) (t : GoType) (f : GoField),
    anonChainTo t p = some f → fieldAtPath t p = some f
  | [], t, f, h => by simp [anonChainTo] at h
  | [i], t, f, h => by
      obtain ⟨n, rv, fs, hsh, hf⟩ := anonChainTo_one t i f h
      exact fieldAtPath_one_mk t n rv fs i f hsh hf
  | i :: r1 :: r2, t, f, h => by
      obtain ⟨n, rv, fs, f0, hsh, hf0, ha, hrec⟩ := anonChainTo_cons2 t i r1 r2 f h
      exact fieldAtPath_cons2_mk t n rv fs i r1 r2 f0 f hsh hf0
        (anonChainTo_fieldAtPath (r1 :: r2) (GoField.ftype f0) f hrec)

theorem anonChainTo_snoc : ∀ (p : List Nat) (t : GoType) (g : GoField) (i : Nat) (f : GoField)
    (n : String) (rv : Recv) (fs : List (String × String × Bool × Bool × GoType)),
    anonChainTo t p = some g → GoField.fanon g = true →
    (GoField.ftype g = .struct_ n rv fs ∨ GoField.ftype g = .ptr (.struct_ n rv fs)) →
    fs.get? i = some f → anonChainTo t (p ++ [i]) = some f
  | [], t, g, i, f, n, rv, fs, h, _, _, _ => by simp [anonChainTo] at h
  | [j], t, g, i, f, n, rv, fs, h, ha, hsh, hf => by
      obtain ⟨n0, rv0, fs0, hsh0, hg⟩ := anonChainTo_one t j g h
      exact anonChainTo_cons2_mk t n0 rv0 fs0 j i [] g f hsh0 hg ha
        (anonChainTo_one_mk (GoField.ftype g) n rv fs i f hsh hf)
  | j :: r1 :: r2, t, g, i, f, n, rv, fs, h, ha, hsh, hf => by
      obtain ⟨n0, rv0, fs0, f0, hsh0, hf0, ha0, hrec⟩ := anonChainTo_cons2 t j r1 r2 g h
      exact anonChainTo_cons2_mk t n0 rv0 fs0 j r1 (r2 ++ [i]) f0 f hsh0 hf0 ha0
        (anonChainTo_snoc (r1 :: r2) (GoField.ftype f0) g i f n rv fs hrec ha hsh hf)

theorem shape_align (t : GoType) (n n2 : String) (rv rv2 : Recv)
    (fs fs2 : List (String × String × Bool × Bool × GoType))
    (h1 : t = .struct_ n rv fs ∨ t = .ptr (.struct_ n rv fs))
    (h2 : t = .struct_ n2 rv2 fs2 ∨ t = .ptr (.struct_ n2 rv2 fs2)) : fs = fs2 := by
  rcases h1 with h1 | h1 <;> rcases h2 with h2 | h2 <;> subst h1 <;> cases h2 <;> rfl

theorem goFieldsWF_mem : ∀ (fs : List (String × String × Bool × Bool × GoType)),
    goFieldsWF fs = true → ∀ f ∈ fs, GoField.fanon f = true →
    ∀ n rv fs2, stripPtr (GoField.ftype f) = .struct_ n rv fs2 →
    (GoField.ftype f = .struct_ n rv fs2 ∨ GoField.ftype f = .ptr (.struct_ n rv fs2)) ∧
      goFieldsWF fs2 = true
  | [], _, f, hmem, _, _, _, _, _ => by simp at hmem
  | (a, b, anon, e, t) :: fs, h, f, hmem, ha, n, rv, fs2, hstrip => by
      rcases List.mem_cons.mp hmem with he | he
      · subst he
        simp only [GoField.fanon] at ha
        subst ha
        simp only [GoField.ftype] at hstrip ⊢
        rcases t with _ | ⟨n0, rv0, fs0⟩ | _ | _ | te
        · simp [stripPtr] at hstrip
        · simp [goFieldsWF] at h
          simp [stripPtr] at hstrip
          obtain ⟨hn, hrv, hfs⟩ := hstrip
          subst hn
          subst hrv
          subst hfs
          exact ⟨Or.inl rfl, h.1⟩
        · simp [stripPtr] at hstrip
        · simp [stripPtr] at hstrip
        · rcases te with _ | ⟨n0, rv0, fs0⟩ | _ | _ | t2
          · simp [stripPtr] at hstrip
          · simp [goFieldsWF] at h
            simp [stripPtr] at hstrip
            obtain ⟨hn, hrv, hfs⟩ := hstrip
            subst hn
            subst hrv
            subst hfs
            exact ⟨Or.inr rfl, h.1⟩
          · simp [stripPtr] at hstrip
          · simp [stripPtr] at hstrip
          · simp [goFieldsWF] at h
      · have h2 : goFieldsWF fs = true := by
          rcases anon with _ | _ <;>
            rcases t with _ | ⟨n0, rv0, fs0⟩ | _ | _ | (_ | ⟨n0, rv0, fs0⟩ | _ | _ | _) <;>
            simp [goFieldsWF] at h <;>
            first
              | exact h
              | exact h.2
        exact goFieldsWF_mem fs h2 f he ha n rv fs2 hstrip

theorem processField_path (R : GoType) (index : List Nat)
    (fs : List (String × String × Bool × Bool × GoType)) (st : BuildState) (p : Nat × GoField)
    (hctx : ChainCtx R index fs) (hwf : goFieldsWF fs = true)
    (hp : fs.get? p.1 = some p.2)
    (hfields : ∀ pr ∈ st.fields, NamedEntryOk R pr)
    (hnext : ∀ s ∈ st.next, ScanOk R s) :
    (∀ pr ∈ (processField index st p).fields, NamedEntryOk R pr) ∧
    (∀ s ∈ (processField index st p).next, ScanOk R s) := by
  have hchain : anonChainTo R (index ++ [p.1]) = some p.2 := by
    rcases hctx with ⟨hidx, n, rv, hsh⟩ | ⟨g, n, rv, hg, ha, hsh⟩
    · subst hidx
      simpa using anonChainTo_one_mk R n rv fs p.1 p.2 hsh hp
    · exact anonChainTo_snoc index R g p.1 p.2 n rv fs hg ha hsh hp
  have hpmem : p.2 ∈ fs := List.get?_mem hp
  unfold processField
  dsimp only
  split
  next hanon =>
    refine ⟨hfields, ?_⟩
    intro s hs
    rcases List.mem_append.mp hs with hs1 | hs2
    · exact hnext s hs1
    · simp at hs2
      subst hs2
      refine ⟨Or.inr ⟨p.2, hchain, hanon, rfl⟩, ?_⟩
      intro n2 rv2 fs2 hstrip
      exact goFieldsWF_mem fs hwf p.2 hpmem hanon n2 rv2 fs2 hstrip
  next hanon =>
    split
    · exact ⟨hfields, hnext⟩
    split
    · exact ⟨hfields, hnext⟩
    split
    · refine ⟨?_, hnext⟩
      intro pr hpr
      exact hfields pr (List.mem_of_mem_filter hpr)
    split
    · exact ⟨hfields, hnext⟩
    · refine ⟨?_, hnext⟩
      intro pr hpr
      rcases List.mem_append.mp hpr with h1 | h2
      · exact hfields pr h1
      · simp at h2
        subst h2
        exact ⟨rfl, p.2, hchain, by simpa using hanon, rfl⟩

theorem foldl_processField_path (R : GoType) (index : List Nat)
    (fs : List (String × String × Bool × Bool × GoType))
    (hctx : ChainCtx R index fs) (hwf : goFieldsWF fs = true) :
    ∀ (l : List (Nat × GoField)) (st : BuildState),
    (∀ q ∈ l, fs.get? (q : Nat × GoField).1 = some q.2) →
    (∀ pr ∈ st.fields, NamedEntryOk R pr) →
    (∀ s ∈ st.next, ScanOk R s) →
    (∀ pr ∈ (l.foldl (processField index) st).fields, NamedEntryOk R pr) ∧
    (∀ s ∈ (l.foldl (processField index) st).next, ScanOk R s)
  | [], st, _, hf, hn => ⟨hf, hn⟩
  | q :: l, st, hq, hf, hn => by
      rw [List.foldl_cons]
      have hstep := processField_path R index fs st q hctx hwf
        (hq q (List.mem_cons_self q l)) hf hn
      exact foldl_processField_path R index fs hctx hwf l _
        (fun q2 hq2 => hq q2 (List.mem_cons_of_mem q hq2)) hstep.1 hstep.2

theorem enum_get? (fs : List (String × String × Bool × Bool × GoType)) :
    ∀ q ∈ fs.enum, fs.get? (q : Nat × GoField).1 = some q.2 := by
  intro q hq
  obtain ⟨i, f⟩ := q
  simp only [List.enum] at hq
  rw [List.mk_mem_enumFrom_iff_le_and_getElem?_sub] at hq
  simpa [List.get?_eq_getElem?] using hq.2

theorem processScan_path (R : GoType) (st : BuildState) (s : FieldScan)
    (hs : ScanOk R s)
    (hfields : ∀ pr ∈ st.fields, NamedEntryOk R pr)
    (hnext : ∀ s2 ∈ st.next, ScanOk R s2) :
    (∀ pr ∈ (processScan st s).fields, NamedEntryOk R pr) ∧
    (∀ s2 ∈ (processScan st s).next, ScanOk R s2) := by
  unfold processScan
  rcases hstr : stripPtr s.typ with pn | ⟨n, rv, fs⟩ | te | te | te
  · exact ⟨hfields, hnext⟩
  · dsimp only
    split
    · exact ⟨hfields, hnext⟩
    · obtain ⟨hsh, hwf⟩ := hs.2 n rv fs hstr
      have hctx : ChainCtx R s.index fs := by
        rcases hs.1 with ⟨hidx, htyp⟩ | ⟨g, hg, ha, hft⟩
        · exact Or.inl ⟨hidx, n, rv, by rw [← htyp]; exact hsh⟩
        · exact Or.inr ⟨g, n, rv, hg, ha, by rw [hft]; exact hsh⟩
      exact foldl_processField_path R s.index fs hctx hwf fs.enum
        { st with visited := st.visited ++ [n] } (enum_get? fs) hfields hnext
  · exact ⟨hfields, hnext⟩
  · exact ⟨hfields, hnext⟩
  · exact ⟨hfields, hnext⟩

theorem foldl_processScan_path (R : GoType) : ∀ (l : List FieldScan) (st : BuildState),
    (∀ pr ∈ st.fields, NamedEntryOk R pr) →
    (∀ s ∈ st.next, ScanOk R s) →
    (∀ s ∈ l, ScanOk R s) →
    (∀ pr ∈ (l.foldl processScan st).fields, NamedEntryOk R pr) ∧
    (∀ s ∈ (l.foldl processScan st).next, ScanOk R s)
  | [], st, hf, hn, _ => ⟨hf, hn⟩
  | sc :: l, st, hf, hn, hl => by
      rw [List.foldl_cons]
      have hstep := processScan_path R st sc (hl sc (List.mem_cons_self sc l)) hf hn
      exact foldl_processScan_path R l _ hstep.1 hstep.2
        (fun s2 hs2 => hl s2 (List.mem_cons_of_mem sc hs2))

theorem bfsLoop_path (R : GoType) : ∀ (st : BuildState) (current : List FieldScan),
    (∀ pr ∈ st.fields, NamedEntryOk R pr) →
    (∀ s ∈ st.next, ScanOk R s) →
    (∀ s ∈ current, ScanOk R s) →
    ∀ pr ∈ (bfsLoop st current).fields, NamedEntryOk R pr := by
  intro st current
  induction st, current using bfsLoop.induct with
  | case1 st =>
      intro hf _ _
      rw [bfsLoop]
      exact hf
  | case2 st hd tl st1 ih =>
      intro hf hn hc
      rw [bfsLoop]
      simp only
      have h1 := foldl_processScan_path R (hd :: tl) { st with found := [], next := [] }
        hf (by simp) hc
      exact ih (fun pr hpr => h1.1 pr hpr) (by simp) h1.2

theorem buildStructFields_paths (rname : String) (recv : Recv)
    (flds : List (String × String × Bool × Bool × GoType))
    (hwf : goFieldsWF flds = true) :
    ∀ pr ∈ (buildStructFields (.struct_ rname recv flds)).fields,
      NamedEntryOk (.struct_ rname recv flds) pr := by
  unfold buildStructFields
  intro pr hpr
  refine bfsLoop_path _ _ _ (by simp) (by simp) ?_ pr hpr
  intro s hs
  simp at hs
  subst hs
  refine ⟨Or.inl ⟨rfl, rfl⟩, ?_⟩
  intro n rv fs hstrip
  simp [stripPtr] at hstrip
  obtain ⟨h1, h2, h3⟩ := hstrip
  subst h1
  subst h2
  subst h3
  exact ⟨Or.inl rfl, hwf⟩

theorem lt_of_get?_some (l : List (String × String × Bool × Bool × GoType)) (i : Nat)
    (a : String × String × Bool × Bool × GoType) (h : l.get? i = some a) : i < l.length := by
  by_contra hc
  rw [List.get?_eq_none.mpr (Nat.le_of_not_lt hc)] at h
  simp at h

theorem getD_of_get? (l : List GoValue) (i : Nat) (d w : GoValue)
    (h : l.get? i = some w) : l.getD i d = w := by
  rw [List.getD_eq_getElem?_getD, ← List.get?_eq_getElem?, h]
  rfl

theorem getD_set_ne (l : List GoValue) (i j : Nat) (w d : GoValue) (h : i ≠ j) :
    (l.set i w).getD j d = l.getD j d := by
  rw [List.getD_eq_getElem?_getD, ← List.get?_eq_getElem?, List.get?_set_ne _ _ h,
    List.get?_eq_getElem?, ← List.getD_eq_getElem?_getD]

theorem getD_set_eq (l : List GoValue) (i : Nat) (w d : GoValue) (h : i < l.length) :
    (l.set i w).getD i d = w := by
  rw [List.getD_eq_getElem?_getD, ← List.get?_eq_getElem?, List.get?_set_eq_of_lt _ h]
  rfl

theorem setAtPath_struct_cons (d : Decoder) (rv : Raw) (n : String) (rc : Recv)
    (fs : List (String × String × Bool × Bool × GoType)) (v : GoValue) (i : Nat)
    (rest : List Nat) (f : String × String × Bool × Bool × GoType)
    (hf : fs.get? i = some f) :
    setAtPath d rv (.struct_ n rc fs) v (i :: rest) =
      (structSlotSet v i
         (setAtPath d rv (GoField.ftype f) (structSlotGet v i (GoField.ftype f)) rest).1,
       (setAtPath d rv (GoField.ftype f) (structSlotGet v i (GoField.ftype f)) rest).2) := by
  rw [setAtPath, hf]

theorem setAtPath_ptr_struct (d : Decoder) (rv : Raw) (n : String) (rc : Recv)
    (fs : List (String × String × Bool × Bool × GoType)) (v : GoValue) (i : Nat)
    (rest : List Nat) (f : String × String × Bool × Bool × GoType)
    (hf : fs.get? i = some f) :
    setAtPath d rv (.ptr (.struct_ n rc fs)) v (i :: rest) =
      (.vPtr (some (structSlotSet (derefOrZero (.struct_ n rc fs) v) i
         (setAtPath d rv (GoField.ftype f)
           (structSlotGet (derefOrZero (.struct_ n rc fs) v) i (GoField.ftype f)) rest).1)),
       (setAtPath d rv (GoField.ftype f)
         (structSlotGet (derefOrZero (.struct_ n rc fs) v) i (GoField.ftype f)) rest).2) := by
  have hf2 : fs[i]? = some f := by
    rw [← List.get?_eq_getElem?]
    exact hf
  rcases v with c | vs | es | ms | (_ | u) | raw <;>
    (rw [setAtPath]; simp [derefOrZero, hf, hf2]) <;>
    (intro u hx; simp at hx)

theorem zeroPath_init : ∀ (p : List Nat) (t : GoType)
    (f : String × String × Bool × Bool × GoType),
    fieldAtPath t p = some f → ZeroPath t (zeroValue t) p
  | [], t, f, h => by simp [fieldAtPath] at h
  | [i], t, f, h => by
      obtain ⟨n, rv, fs, hsh, hf⟩ := fieldAtPath_one t i f h
      have hslot : (zeroFields fs).getD i (zeroValue (GoField.ftype f)) =
          zeroValue (GoField.ftype f) := by
        apply getD_of_get?
        rw [zeroFields_get?, hf]
        rfl
      rcases hsh with hsh | hsh <;> subst hsh
      · rw [zeroValue]
        simp only [ZeroPath]
        refine ⟨zeroFields fs, rfl, zeroFields_length fs, f, hf, ?_⟩
        simp only [structSlotGet]
        exact hslot
      · rw [zeroValue]
        simp only [ZeroPath]
        refine ⟨zeroFields fs, ?_, zeroFields_length fs, f, hf, ?_⟩
        · show zeroValue (.struct_ n rv fs) = .vStruct (zeroFields fs)
          rw [zeroValue]
        · show (zeroFields fs).getD i (zeroValue (GoField.ftype f)) =
            zeroValue (GoField.ftype f)
          exact hslot
  | i :: r1 :: r2, t, f, h => by
      obtain ⟨n, rv, fs, f0, hsh, hf0, hrec⟩ := fieldAtPath_cons2 t i r1 r2 f h
      have hslot : (zeroFields fs).getD i (zeroValue (GoField.ftype f0)) =
          zeroValue (GoField.ftype f0) := by
        apply getD_of_get?
        rw [zeroFields_get?, hf0]
        rfl
      have hih := zeroPath_init (r1 :: r2) (GoField.ftype f0) f hrec
      rcases hsh with hsh | hsh <;> subst hsh
      · rw [zeroValue]
        simp only [ZeroPath]
        refine ⟨zeroFields fs, rfl, zeroFields_length fs, f0, hf0, ?_⟩
        show ZeroPath (GoField.ftype f0)
          ((zeroFields fs).getD i (zeroValue (GoField.ftype f0))) (r1 :: r2)
        rw [hslot]
        exact hih
      · rw [zeroValue]
        simp only [ZeroPath]
        refine ⟨zeroFields fs, ?_, zeroFields_length fs, f0, hf0, ?_⟩
        · show zeroValue (.struct_ n rv fs) = .vStruct (zeroFields fs)
          rw [zeroValue]
        · show ZeroPath (GoField.ftype f0)
            ((zeroFields fs).getD i (zeroValue (GoField.ftype f0))) (r1 :: r2)
          rw [hslot]
          exact hih

theorem namePaths_diverge : ∀ (p1 p2 : List Nat) (t : GoType) (f1 f2 : GoField),
    anonChainTo t p1 = some f1 → GoField.fanon f1 = false →
    anonChainTo t p2 = some f2 → GoField.fanon f2 = false →
    p1 ≠ p2 → Diverge p1 p2
  | [], p2, t, f1, f2, h1, _, _, _, _ => by simp [anonChainTo] at h1
  | _ :: _, [], t, f1, f2, _, _, h2, _, _ => by simp [anonChainTo] at h2
  | [i], [j], t, f1, f2, h1, ha1, h2, ha2, hne => by
      rw [Diverge]
      by_cases hij : i = j
      · exact absurd (by rw [hij]) hne
      · exact Or.inl hij
  | [i], j :: q1 :: q2, t, f1, f2, h1, ha1, h2, ha2, hne => by
      rw [Diverge]
      by_cases hij : i = j
      · subst hij
        obtain ⟨n, rv, fs, hsh1, hg1⟩ := anonChainTo_one t i f1 h1
        obtain ⟨n2, rv2, fs2, f0, hsh2, hg2, ha0, _⟩ := anonChainTo_cons2 t i q1 q2 f2 h2
        have hfs := shape_align t n n2 rv rv2 fs fs2 hsh1 hsh2
        subst hfs
        rw [hg1] at hg2
        injection hg2 with hg2
        subst hg2
        rw [ha1] at ha0
        simp at ha0
      · exact Or.inl hij
  | i :: r1 :: r2, [j], t, f1, f2, h1, ha1, h2, ha2, hne => by
      rw [Diverge]
      by_cases hij : i = j
      · subst hij
        obtain ⟨n, rv, fs, f0, hsh1, hg1, ha0, _⟩ := anonChainTo_cons2 t i r1 r2 f1 h1
        obtain ⟨n2, rv2, fs2, hsh2, hg2⟩ := anonChainTo_one t i f2 h2
        have hfs := shape_align t n n2 rv rv2 fs fs2 hsh1 hsh2
        subst hfs
        rw [hg1] at hg2
        injection hg2 with hg2
        subst hg2
        rw [ha2] at ha0
        simp at ha0
      · exact Or.inl hij
  | i :: r1 :: r2, j :: q1 :: q2, t, f1, f2, h1, ha1, h2, ha2, hne => by
      rw [Diverge]
      by_cases hij : i = j
      · subst hij
        obtain ⟨n, rv, fs, f0, hsh1, hg1, ha0, hrec1⟩ := anonChainTo_cons2 t i r1 r2 f1 h1
        obtain ⟨n2, rv2, fs2, f0b, hsh2, hg2, ha0b, hrec2⟩ := anonChainTo_cons2 t i q1 q2 f2 h2
        have hfs := shape_align t n n2 rv rv2 fs fs2 hsh1 hsh2
        subst hfs
        rw [hg1] at hg2
        injection hg2 with hg2
        subst hg2
        refine Or.inr ⟨rfl, ?_⟩
        exact namePaths_diverge (r1 :: r2) (q1 :: q2) (GoField.ftype f0) f1 f2 hrec1 ha1
          hrec2 ha2 (by intro hc; exact hne (by rw [hc]))
      · exact Or.inl hij


theorem getAtPath_struct_cons (n : String) (rc : Recv)
    (fs : List (String × String × Bool × Bool × GoType)) (v : GoValue) (i : Nat)
    (rest : List Nat) (f : String × String × Bool × Bool × GoType)
    (hf : fs.get? i = some f) :
    getAtPath (.struct_ n rc fs) v (i :: rest) =
      getAtPath (GoField.ftype f) (structSlotGet v i (GoField.ftype f)) rest := by
  rw [getAtPath, hf]

theorem getAtPath_ptr_struct (n : String) (rc : Recv)
    (fs : List (String × String × Bool × Bool × GoType)) (v : GoValue) (i : Nat)
    (rest : List Nat) (f : String × String × Bool × Bool × GoType)
    (hf : fs.get? i = some f) :
    getAtPath (.ptr (.struct_ n rc fs)) v (i :: rest) =
      getAtPath (GoField.ftype f)
        (structSlotGet (derefOrZero (.struct_ n rc fs) v) i (GoField.ftype f)) rest := by
  rw [getAtPath, hf]

theorem fieldAtPath_cons_full (t : GoType) (i : Nat) (rest : List Nat)
    (g : String × String × Bool × Bool × GoType)
    (h : fieldAtPath t (i :: rest) = some g) :
    ∃ n rc fs g0, (t = .struct_ n rc fs ∨ t = .ptr (.struct_ n rc fs)) ∧
      fs.get? i = some g0 ∧
      ((rest = [] ∧ g0 = g) ∨ (rest ≠ [] ∧ fieldAtPath (GoField.ftype g0) rest = some g)) := by
  rcases rest with _ | ⟨r1, r2⟩
  · obtain ⟨n, rc, fs, hsh, hg⟩ := fieldAtPath_one t i g h
    exact ⟨n, rc, fs, g, hsh, hg, Or.inl ⟨rfl, rfl⟩⟩
  · obtain ⟨n, rc, fs, g0, hsh, hg0, hrec⟩ := fieldAtPath_cons2 t i r1 r2 g h
    exact ⟨n, rc, fs, g0, hsh, hg0, Or.inr ⟨by simp, hrec⟩⟩

theorem struct_or_ptr_struct_inj (n n2 : String) (rc rc2 : Recv)
    (fs fs2 : List (String × String × Bool × Bool × GoType))
    (h : GoType.struct_ n rc fs = GoType.struct_ n2 rc2 fs2 ∨
      GoType.struct_ n rc fs = GoType.ptr (.struct_ n2 rc2 fs2)) : fs2 = fs := by
  rcases h with h | h <;> cases h <;> rfl

theorem ptr_struct_or_struct_inj (n n2 : String) (rc rc2 : Recv)
    (fs fs2 : List (String × String × Bool × Bool × GoType))
    (h : GoType.ptr (.struct_ n rc fs) = GoType.struct_ n2 rc2 fs2 ∨
      GoType.ptr (.struct_ n rc fs) = GoType.ptr (.struct_ n2 rc2 fs2)) : fs2 = fs := by
  rcases h with h | h <;> cases h <;> rfl

theorem derefOrZero_some (te : GoType) (x : GoValue) :
    derefOrZero te (.vPtr (some x)) = x := rfl

theorem getAtPath_nil (t : GoType) (v : GoValue) : getAtPath t v [] = v := by
  rcases t <;> simp [getAtPath]

theorem setAtPath_write : ∀ (p : List Nat) (t : GoType) (v : GoValue)
    (f : String × String × Bool × Bool × GoType) (d : Decoder) (rv : Raw),
    fieldAtPath t p = some f → ZeroPath t v p →
    (setAtPath d rv t v p).2 =
      (unmarshalValue d rv (GoField.ftype f) (zeroValue (GoField.ftype f))).2 ∧
    getAtPath t (setAtPath d rv t v p).1 p =
      (unmarshalValue d rv (GoField.ftype f) (zeroValue (GoField.ftype f))).1 ∧
    (∀ q, Diverge p q →
      (∀ g, fieldAtPath t q = some g →
        getAtPath t (setAtPath d rv t v p).1 q = getAtPath t v q) ∧
      (ZeroPath t v q → ZeroPath t (setAtPath d rv t v p).1 q))
  | [], t, v, f, d, rv, hfp, _ => by simp [fieldAtPath] at hfp
  | i :: rest, t, v, f, d, rv, hfp, hz => by
      obtain ⟨n, rc, fs, f0, hsh, hf0, hrest⟩ := fieldAtPath_cons_full t i rest f hfp
      rcases hsh with hsh | hsh <;> subst hsh
      · -- the target is the struct itself
        simp only [ZeroPath] at hz
        obtain ⟨vs, hv, hlen, f0b, hf0b, hz0⟩ := hz
        rw [hf0] at hf0b
        injection hf0b with hf0b
        subst hf0b
        subst hv
        have hilt : i < fs.length := lt_of_get?_some fs i f0 hf0
        have hiltv : i < vs.length := by rw [hlen]; exact hilt
        have hpack :
            (setAtPath d rv (GoField.ftype f0)
              (structSlotGet (.vStruct vs) i (GoField.ftype f0)) rest).2 =
              (unmarshalValue d rv (GoField.ftype f) (zeroValue (GoField.ftype f))).2 ∧
            getAtPath (GoField.ftype f0)
              (setAtPath d rv (GoField.ftype f0)
                (structSlotGet (.vStruct vs) i (GoField.ftype f0)) rest).1 rest =
              (unmarshalValue d rv (GoField.ftype f) (zeroValue (GoField.ftype f))).1 ∧
            (∀ q2, Diverge rest q2 →
              (∀ g, fieldAtPath (GoField.ftype f0) q2 = some g →
                getAtPath (GoField.ftype f0)
                  (setAtPath d rv (GoField.ftype f0)
                    (structSlotGet (.vStruct vs) i (GoField.ftype f0)) rest).1 q2 =
                getAtPath (GoField.ftype f0)
                  (structSlotGet (.vStruct vs) i (GoField.ftype f0)) q2) ∧
              (ZeroPath (GoField.ftype f0)
                  (structSlotGet (.vStruct vs) i (GoField.ftype f0)) q2 →
                ZeroPath (GoField.ftype f0)
                  (setAtPath d rv (GoField.ftype f0)
                    (structSlotGet (.vStruct vs) i (GoField.ftype f0)) rest).1 q2)) := by
          rcases hrest with ⟨hre, hf0f⟩ | ⟨hne, hrec⟩
          · subst hre
            subst hf0f
            simp only [ZeroPath] at hz0
            rw [setAtPath]
            rw [hz0]
            exact ⟨rfl, by rw [getAtPath_nil], fun q2 hd => absurd hd (by simp [Diverge])⟩
          · exact setAtPath_write rest (GoField.ftype f0) _ f d rv hrec hz0
        rw [setAtPath_struct_cons d rv n rc fs (.vStruct vs) i rest f0 hf0]
        refine ⟨hpack.1, ?_, ?_⟩
        · rw [getAtPath_struct_cons n rc fs _ i rest f0 hf0]
          simp only [structSlotSet, structSlotGet]
          rw [getD_set_eq vs i _ _ hiltv]
          have hb := hpack.2.1
          simp only [structSlotGet] at hb
          exact hb
        · intro q hdiv
          rcases q with _ | ⟨j, q2⟩
          · simp [Diverge] at hdiv
          · simp only [Diverge] at hdiv
            rcases hdiv with hij | ⟨hij, hdiv2⟩
            · constructor
              · intro g hg
                obtain ⟨n2, rc2, fs2, g0, hsh2, hg0, _⟩ := fieldAtPath_cons_full _ j q2 g hg
                have hfs2 : fs2 = fs := struct_or_ptr_struct_inj n n2 rc rc2 fs fs2 hsh2
                rw [hfs2] at hg0
                rw [getAtPath_struct_cons n rc fs _ j q2 g0 hg0,
                  getAtPath_struct_cons n rc fs _ j q2 g0 hg0]
                simp only [structSlotSet, structSlotGet]
                rw [getD_set_ne vs i j _ _ hij]
              · intro hzq
                simp only [ZeroPath] at hzq ⊢
                obtain ⟨vs2, hv2, hlen2, g0, hg0, hzq0⟩ := hzq
                injection hv2 with hv2
                subst hv2
                refine ⟨vs.set i (setAtPath d rv (GoField.ftype f0) (structSlotGet (.vStruct vs) i (GoField.ftype f0)) rest).1, by simp [structSlotSet], by simp [hlen2], g0, hg0, ?_⟩
                simp only [structSlotGet] at hzq0 ⊢
                simp only [structSlotSet]
                rw [getD_set_ne vs i j _ _ hij]
                exact hzq0
            · subst hij
              constructor
              · intro g hg
                rcases q2 with _ | ⟨q3, q4⟩
                · simp [Diverge] at hdiv2
                · obtain ⟨n2, rc2, fs2, g0, hsh2, hg0, hrec2⟩ :=
                    fieldAtPath_cons_full _ i (q3 :: q4) g hg
                  have hfs2 : fs2 = fs := struct_or_ptr_struct_inj n n2 rc rc2 fs fs2 hsh2
                  rw [hfs2] at hg0
                  rw [hf0] at hg0
                  injection hg0 with hg0
                  subst hg0
                  rcases hrec2 with ⟨hc, _⟩ | ⟨_, hrec2⟩
                  · simp at hc
                  · rw [getAtPath_struct_cons n rc fs _ i (q3 :: q4) f0 hf0,
                      getAtPath_struct_cons n rc fs _ i (q3 :: q4) f0 hf0]
                    simp only [structSlotSet, structSlotGet]
                    rw [getD_set_eq vs i _ _ hiltv]
                    have hc1 := (hpack.2.2 (q3 :: q4) hdiv2).1 g hrec2
                    simp only [structSlotGet] at hc1
                    exact hc1
              · intro hzq
                simp only [ZeroPath] at hzq ⊢
                obtain ⟨vs2, hv2, hlen2, g0, hg0, hzq0⟩ := hzq
                injection hv2 with hv2
                subst hv2
                rw [hf0] at hg0
                injection hg0 with hg0
                subst hg0
                refine ⟨vs.set i (setAtPath d rv (GoField.ftype f0) (structSlotGet (.vStruct vs) i (GoField.ftype f0)) rest).1, by simp [structSlotSet], by simp [hlen2], f0, hf0, ?_⟩
                simp only [structSlotSet, structSlotGet]
                rw [getD_set_eq vs i _ _ hiltv]
                have hc2 := (hpack.2.2 q2 hdiv2).2
                simp only [structSlotGet] at hc2
                exact hc2 hzq0
      · -- the target is reached through one pointer
        simp only [ZeroPath] at hz
        obtain ⟨vs, hder, hlen, f0b, hf0b, hz0⟩ := hz
        rw [hf0] at hf0b
        injection hf0b with hf0b
        subst hf0b
        have hilt : i < fs.length := lt_of_get?_some fs i f0 hf0
        have hiltv : i < vs.length := by rw [hlen]; exact hilt
        rw [hder] at hz0
        have hpack :
            (setAtPath d rv (GoField.ftype f0)
              (structSlotGet (.vStruct vs) i (GoField.ftype f0)) rest).2 =
              (unmarshalValue d rv (GoField.ftype f) (zeroValue (GoField.ftype f))).2 ∧
            getAtPath (GoField.ftype f0)
              (setAtPath d rv (GoField.ftype f0)
                (structSlotGet (.vStruct vs) i (GoField.ftype f0)) rest).1 rest =
              (unmarshalValue d rv (GoField.ftype f) (zeroValue (GoField.ftype f))).1 ∧
            (∀ q2, Diverge rest q2 →
              (∀ g, fieldAtPath (GoField.ftype f0) q2 = some g →
                getAtPath (GoField.ftype f0)
                  (setAtPath d rv (GoField.ftype f0)
                    (structSlotGet (.vStruct vs) i (GoField.ftype f0)) rest).1 q2 =
                getAtPath (GoField.ftype f0)
                  (structSlotGet (.vStruct vs) i (GoField.ftype f0)) q2) ∧
              (ZeroPath (GoField.ftype f0)
                  (structSlotGet (.vStruct vs) i (GoField.ftype f0)) q2 →
                ZeroPath (GoField.ftype f0)
                  (setAtPath d rv (GoField.ftype f0)
                    (structSlotGet (.vStruct vs) i (GoField.ftype f0)) rest).1 q2)) := by
          rcases hrest with ⟨hre, hf0f⟩ | ⟨hne, hrec⟩
          · subst hre
            subst hf0f
            simp only [ZeroPath] at hz0
            rw [setAtPath]
            rw [hz0]
            exact ⟨rfl, by rw [getAtPath_nil], fun q2 hd => absurd hd (by simp [Diverge])⟩
          · exact setAtPath_write rest (GoField.ftype f0) _ f d rv hrec hz0
        rw [setAtPath_ptr_struct d rv n rc fs v i rest f0 hf0]
        rw [hder]
        refine ⟨hpack.1, ?_, ?_⟩
        · rw [getAtPath_ptr_struct n rc fs _ i rest f0 hf0]
          rw [derefOrZero_some]
          simp only [structSlotSet, structSlotGet]
          rw [getD_set_eq vs i _ _ hiltv]
          have hb := hpack.2.1
          simp only [structSlotGet] at hb
          exact hb
        · intro q hdiv
          rcases q with _ | ⟨j, q2⟩
          · simp [Diverge] at hdiv
          · simp only [Diverge] at hdiv
            rcases hdiv with hij | ⟨hij, hdiv2⟩
            · constructor
              · intro g hg
                obtain ⟨n2, rc2, fs2, g0, hsh2, hg0, _⟩ := fieldAtPath_cons_full _ j q2 g hg
                have hfs2 : fs2 = fs := ptr_struct_or_struct_inj n n2 rc rc2 fs fs2 hsh2
                rw [hfs2] at hg0
                rw [getAtPath_ptr_struct n rc fs _ j q2 g0 hg0,
                  getAtPath_ptr_struct n rc fs _ j q2 g0 hg0]
                rw [derefOrZero_some, hder]
                simp only [structSlotSet, structSlotGet]
                rw [getD_set_ne vs i j _ _ hij]
              · intro hzq
                simp only [ZeroPath] at hzq ⊢
                obtain ⟨vs2, hv2, hlen2, g0, hg0, hzq0⟩ := hzq
                rw [hder] at hv2
                injection hv2 with hv2
                subst hv2
                rw [hder] at hzq0
                rw [derefOrZero_some]
                refine ⟨vs.set i (setAtPath d rv (GoField.ftype f0) (structSlotGet (.vStruct vs) i (GoField.ftype f0)) rest).1, by simp [structSlotSet], by simp [hlen2], g0, hg0, ?_⟩
                simp only [structSlotGet] at hzq0 ⊢
                simp only [structSlotSet]
                rw [getD_set_ne vs i j _ _ hij]
                exact hzq0
            · subst hij
              constructor
              · intro g hg
                rcases q2 with _ | ⟨q3, q4⟩
                · simp [Diverge] at hdiv2
                · obtain ⟨n2, rc2, fs2, g0, hsh2, hg0, hrec2⟩ :=
                    fieldAtPath_cons_full _ i (q3 :: q4) g hg
                  have hfs2 : fs2 = fs := ptr_struct_or_struct_inj n n2 rc rc2 fs fs2 hsh2
                  rw [hfs2] at hg0
                  rw [hf0] at hg0
                  injection hg0 with hg0
                  subst hg0
                  rcases hrec2 with ⟨hc, _⟩ | ⟨_, hrec2⟩
                  · simp at hc
                  · rw [getAtPath_ptr_struct n rc fs _ i (q3 :: q4) f0 hf0,
                      getAtPath_ptr_struct n rc fs _ i (q3 :: q4) f0 hf0]
                    rw [derefOrZero_some, hder]
                    simp only [structSlotSet, structSlotGet]
                    rw [getD_set_eq vs i _ _ hiltv]
                    have hc1 := (hpack.2.2 (q3 :: q4) hdiv2).1 g hrec2
                    simp only [structSlotGet] at hc1
                    exact hc1
              · intro hzq
                simp only [ZeroPath] at hzq ⊢
                obtain ⟨vs2, hv2, hlen2, g0, hg0, hzq0⟩ := hzq
                rw [hder] at hv2
                injection hv2 with hv2
                subst hv2
                rw [hder] at hzq0
                rw [hf0] at hg0
                injection hg0 with hg0
                subst hg0
                rw [derefOrZero_some]
                refine ⟨vs.set i (setAtPath d rv (GoField.ftype f0) (structSlotGet (.vStruct vs) i (GoField.ftype f0)) rest).1, by simp [structSlotSet], by simp [hlen2], f0, hf0, ?_⟩
                simp only [structSlotSet, structSlotGet]
                rw [getD_set_eq vs i _ _ hiltv]
                have hc2 := (hpack.2.2 q2 hdiv2).2
                simp only [structSlotGet] at hc2
                exact hc2 hzq0
termination_by p t v f d rv hfp hz => p.length
decreasing_by
  all_goals simp
  all_goals omega

theorem decodeFields_exact_gen (d : Decoder) (R : GoType) (sf : StructFields) :
    ∀ (es : List (String × Raw)) (v : GoValue),
    (es.map Prod.fst).Nodup →
    (∀ p ∈ es, ∃ pt f, sf.fields.lookup p.1 = some ⟨p.1, pt⟩ ∧
        fieldAtPath R pt = some f ∧ ZeroPath R v pt) →
    (∀ p1 ∈ es, ∀ p2 ∈ es, p1.1 ≠ p2.1 → ∀ pt1 pt2,
        sf.fields.lookup p1.1 = some ⟨p1.1, pt1⟩ →
        sf.fields.lookup p2.1 = some ⟨p2.1, pt2⟩ → Diverge pt1 pt2) →
    (∀ p ∈ es, ∀ pt f, sf.fields.lookup p.1 = some ⟨p.1, pt⟩ →
        fieldAtPath R pt = some f →
        (unmarshalValue d p.2 (GoField.ftype f) (zeroValue (GoField.ftype f))).2 = none) →
    ∃ v2, decodeFields d R sf es v = (v2, none) ∧
      (∀ p ∈ es, ∀ pt f, sf.fields.lookup p.1 = some ⟨p.1, pt⟩ →
        fieldAtPath R pt = some f →
        getAtPath R v2 pt =
          (unmarshalValue d p.2 (GoField.ftype f) (zeroValue (GoField.ftype f))).1) ∧
      (∀ q, (∀ p ∈ es, ∀ pt, sf.fields.lookup p.1 = some ⟨p.1, pt⟩ → Diverge pt q) →
        (∀ g, fieldAtPath R q = some g → getAtPath R v2 q = getAtPath R v q) ∧
        (ZeroPath R v q → ZeroPath R v2 q))
  | [], v, _, _, _, _ => by
      refine ⟨v, ?_, fun p hp => absurd hp (List.not_mem_nil p),
        fun q _ => ⟨fun g _ => rfl, fun hz => hz⟩⟩
      rw [decodeFields]
  | (k, r) :: rest, v, hnd, htar, hdiv, hok => by
      obtain ⟨pt, f, hlk, hfp, hzp⟩ := htar (k, r) (List.mem_cons_self _ _)
      have hw := setAtPath_write pt R v f d r hfp hzp
      have hoke : (unmarshalValue d r (GoField.ftype f) (zeroValue (GoField.ftype f))).2 =
          none := hok (k, r) (List.mem_cons_self _ _) pt f hlk hfp
      have hr2 : (setAtPath d r R v pt).2 = none := by
        rw [hw.1]
        exact hoke
      have hdc : decodeFields d R sf ((k, r) :: rest) v =
          decodeFields d R sf rest (setAtPath d r R v pt).1 := by
        rw [decodeFields, hlk]
        dsimp only
        rw [hr2]
      have hknotin : k ∉ rest.map Prod.fst := by
        simp only [List.map_cons, List.nodup_cons] at hnd
        exact hnd.1
      have hndrest : (rest.map Prod.fst).Nodup := by
        simp only [List.map_cons, List.nodup_cons] at hnd
        exact hnd.2
      have hkne : ∀ p ∈ rest, (p : String × Raw).1 ≠ k := by
        intro p hp he
        exact hknotin (he ▸ List.mem_map_of_mem Prod.fst hp)
      have hdivh : ∀ p ∈ rest, ∀ pt2, sf.fields.lookup (p : String × Raw).1 =
          some ⟨p.1, pt2⟩ → Diverge pt pt2 := by
        intro p hp pt2 hlk2
        exact hdiv (k, r) (List.mem_cons_self _ _) p (List.mem_cons_of_mem _ hp)
          (fun he => hkne p hp he.symm) pt pt2 hlk hlk2
      obtain ⟨v2, hdec2, hval2, hpres2⟩ := decodeFields_exact_gen d R sf rest
        (setAtPath d r R v pt).1
        hndrest
        (fun p hp => by
          obtain ⟨pt2, f2, hlk2, hfp2, hzp2⟩ := htar p (List.mem_cons_of_mem _ hp)
          exact ⟨pt2, f2, hlk2, hfp2,
            (hw.2.2 pt2 (hdivh p hp pt2 hlk2)).2 hzp2⟩)
        (fun p1 h1 p2 h2 => hdiv p1 (List.mem_cons_of_mem _ h1) p2 (List.mem_cons_of_mem _ h2))
        (fun p hp pt2 f2 hlk2 hfp2 => hok p (List.mem_cons_of_mem _ hp) pt2 f2 hlk2 hfp2)
      refine ⟨v2, ?_, ?_, ?_⟩
      · rw [hdc]
        exact hdec2
      · intro p hp pt2 f2 hlk2 hfp2
        rcases List.mem_cons.mp hp with he | he
        · subst he
          have hlk2b : sf.fields.lookup k = some ⟨k, pt2⟩ := hlk2
          have hpt : pt2 = pt := by
            have hh := hlk2b.symm.trans hlk
            simp only [Option.some.injEq, FieldInfo.mk.injEq] at hh
            exact hh.2
          subst hpt
          have hf2 : f2 = f := by
            have hh := hfp2.symm.trans hfp
            simp only [Option.some.injEq] at hh
            exact hh
          subst hf2
          have hdivh2 : ∀ p ∈ rest, ∀ pt3, sf.fields.lookup (p : String × Raw).1 =
              some ⟨p.1, pt3⟩ → Diverge pt3 pt2 := by
            intro p hp pt3 hlk3
            exact hdiv p (List.mem_cons_of_mem _ hp) (k, r) (List.mem_cons_self _ _)
              (hkne p hp) pt3 pt2 hlk3 hlk
          have hq := hpres2 pt2 hdivh2
          rw [hq.1 f2 hfp2]
          exact hw.2.1
        · exact hval2 p he pt2 f2 hlk2 hfp2
      · intro q hq
        have hqrest : ∀ p ∈ rest, ∀ pt3, sf.fields.lookup (p : String × Raw).1 =
            some ⟨p.1, pt3⟩ → Diverge pt3 q := by
          intro p hp pt3 hlk3
          exact hq p (List.mem_cons_of_mem _ hp) pt3 hlk3
        have hqk : Diverge pt q := hq (k, r) (List.mem_cons_self _ _) pt hlk
        have h1 := hpres2 q hqrest
        have h2 := hw.2.2 q hqk
        exact ⟨fun g hg => (h1.1 g hg).trans (h2.1 g hg), fun hz => h1.2 (h2.2 hz)⟩

/-- C1 (amended): for every record type R - with arbitrary embedded
members at any depth, under Go's embedding rule that an embedded member
is a named type or a pointer to one (the compiler enforces this; the
model's types also admit illegal shapes, so the rule is a hypothesis) -
with no name conflict and no custom decoder of its own, for every decoder
and every raw object whose keys are exactly R's resolved external names
(case-exact, each once): if each key's raw sub-value decodes successfully
into the zero value of the field its resolved index path reaches, then
Decoder.Unmarshal into a fresh zero pointer-to-R succeeds, the slot each
resolved index path reaches holds exactly the walker's recursive decode
of that key's raw sub-value, every slot at a path diverging from all
resolved paths is untouched, and for a field whose type reaches no nested
record the decoded value moreover equals the natural non-strict (fast
standard path) decode of the same raw sub-value. -/
theorem exact_match_decode_amended (d : Decoder) (rname : String) (recv : Recv)
    (flds : List (String × String × Bool × Bool × GoType))
    (entries : List (String × Raw))
    (hwf : goWF (.struct_ rname recv flds) = true)
    (hcust : implementsUnmarshaler (.ptr (.struct_ rname recv flds)) = false)
    (hconf : (buildStructFields (.struct_ rname recv flds)).conflict = "")
    (hperm : (entries.map Prod.fst).Perm
      (buildStructFields (.struct_ rname recv flds)).allNames)
    (hok : ∀ p ∈ entries, ∀ pt f,
      (buildStructFields (.struct_ rname recv flds)).fields.lookup p.1 = some ⟨p.1, pt⟩ →
      fieldAtPath (.struct_ rname recv flds) pt = some f →
      (unmarshalValue d p.2 (GoField.ftype f) (zeroValue (GoField.ftype f))).2 = none) :
    ∃ v2,
      d.Unmarshal (.obj entries) (.ptr (.struct_ rname recv flds))
          (.vPtr (some (zeroValue (.struct_ rname recv flds)))) =
        (.vPtr (some v2), none) ∧
      (∀ p ∈ entries, ∀ pt f,
        (buildStructFields (.struct_ rname recv flds)).fields.lookup p.1 = some ⟨p.1, pt⟩ →
        fieldAtPath (.struct_ rname recv flds) pt = some f →
        getAtPath (.struct_ rname recv flds) v2 pt =
          (unmarshalValue d p.2 (GoField.ftype f) (zeroValue (GoField.ftype f))).1 ∧
        (structFree (GoField.ftype f) = true →
          unmarshalValue d p.2 (GoField.ftype f) (zeroValue (GoField.ftype f)) =
            jsonUnmarshal p.2 (GoField.ftype f) (zeroValue (GoField.ftype f)))) ∧
      (∀ q g, fieldAtPath (.struct_ rname recv flds) q = some g →
        (∀ p ∈ entries, ∀ pt,
          (buildStructFields (.struct_ rname recv flds)).fields.lookup p.1 =
            some ⟨p.1, pt⟩ → Diverge pt q) →
        getAtPath (.struct_ rname recv flds) v2 q =
          getAtPath (.struct_ rname recv flds)
            (zeroValue (.struct_ rname recv flds)) q) := by
  have hinv := buildStructFields_inv (.struct_ rname recv flds)
  have hwf2 : goFieldsWF flds = true := by simpa [goWF] using hwf
  have hpaths := buildStructFields_paths rname recv flds hwf2
  have hres : ∀ p : String × Raw, p ∈ entries → ∃ pt f2,
      (buildStructFields (.struct_ rname recv flds)).fields.lookup p.1 =
        some ⟨p.1, pt⟩ ∧
      anonChainTo (.struct_ rname recv flds) pt = some f2 ∧
      GoField.fanon f2 = false ∧ goFieldName f2 = p.1 := by
    intro p hp
    have h1 : p.1 ∈ (buildStructFields (.struct_ rname recv flds)).allNames :=
      hperm.subset (List.mem_map_of_mem Prod.fst hp)
    have h2 := (hinv.2.2 p.1).mp h1
    rcases h3 : (buildStructFields (.struct_ rname recv flds)).fields.lookup p.1
      with _ | fi
    · rw [h3] at h2
      simp at h2
    · obtain ⟨jn, fx⟩ := fi
      have hmem := lookup_mem_fi _ _ _ h3
      obtain ⟨hjn, f2, hchain, hanon, hname⟩ := hpaths _ hmem
      dsimp only at hjn hchain hanon hname
      subst hjn
      exact ⟨fx, f2, rfl, hchain, hanon, hname⟩
  have hdivv : ∀ p1 ∈ entries, ∀ p2 ∈ entries, (p1 : String × Raw).1 ≠ p2.1 →
      ∀ pt1 pt2,
      (buildStructFields (.struct_ rname recv flds)).fields.lookup p1.1 =
        some ⟨p1.1, pt1⟩ →
      (buildStructFields (.struct_ rname recv flds)).fields.lookup p2.1 =
        some ⟨p2.1, pt2⟩ → Diverge pt1 pt2 := by
    intro p1 h1 p2 h2 hne pt1 pt2 hl1 hl2
    obtain ⟨pt1b, f1, hl1b, hc1, ha1, hn1⟩ := hres p1 h1
    obtain ⟨pt2b, f2, hl2b, hc2, ha2, hn2⟩ := hres p2 h2
    have he1 : pt1b = pt1 := by
      have hh := hl1b.symm.trans hl1
      simp only [Option.some.injEq, FieldInfo.mk.injEq] at hh
      exact hh.2
    have he2 : pt2b = pt2 := by
      have hh := hl2b.symm.trans hl2
      simp only [Option.some.injEq, FieldInfo.mk.injEq] at hh
      exact hh.2
    subst he1
    subst he2
    have hptne : pt1b ≠ pt2b := by
      intro he
      subst he
      rw [hc1] at hc2
      injection hc2 with hc2
      subst hc2
      rw [hn1] at hn2
      exact hne hn2
    exact namePaths_diverge pt1b pt2b (.struct_ rname recv flds) f1 f2 hc1 ha1 hc2 ha2 hptne
  obtain ⟨v2, hdec, hval, hpres⟩ := decodeFields_exact_gen d (.struct_ rname recv flds)
    (buildStructFields (.struct_ rname recv flds)) entries
    (zeroValue (.struct_ rname recv flds))
    (hperm.nodup_iff.mpr hinv.2.1)
    (fun p hp => by
      obtain ⟨pt, f2, hl, hc, _, _⟩ := hres p hp
      have hfp := anonChainTo_fieldAtPath pt (.struct_ rname recv flds) f2 hc
      exact ⟨pt, f2, hl, hfp, zeroPath_init pt (.struct_ rname recv flds) f2 hfp⟩)
    hdivv
    hok
  have hfind : entries.find? (fun p =>
      ((buildStructFields (.struct_ rname recv flds)).fields.lookup p.1).isNone) =
      none := by
    rw [List.find?_eq_none]
    intro p hp
    obtain ⟨pt, f2, hl, _, _, _⟩ := hres p hp
    simp [hl]
  have hgsf : getStructFields (.struct_ rname recv flds) =
      .ok (buildStructFields (.struct_ rname recv flds)) := by
    unfold getStructFields
    rw [if_neg (by simp [hconf])]
  have hstruct : unmarshalStruct d (.obj entries) (.struct_ rname recv flds)
      (zeroValue (.struct_ rname recv flds)) =
      decodeFields d (.struct_ rname recv flds)
        (buildStructFields (.struct_ rname recv flds)) entries
        (zeroValue (.struct_ rname recv flds)) := by
    rw [unmarshalStruct]
    rw [hgsf]
    dsimp only
    rw [hfind]
    by_cases hD : d.DisallowUnknownFields <;> simp [hD]
  have hdisp : unmarshalValue d (.obj entries) (.struct_ rname recv flds)
      (zeroValue (.struct_ rname recv flds)) =
      unmarshalStruct d (.obj entries) (.struct_ rname recv flds)
        (zeroValue (.struct_ rname recv flds)) := by
    rw [unmarshalValue]
    simp [Raw.isNull, hcust, stripPtr, allocDescend, rewrapPtr]
  refine ⟨v2, ?_, ?_, ?_⟩
  · rw [Decoder.Unmarshal]
    rw [hdisp, hstruct, hdec]
  · intro p hp pt f hl hfp
    exact ⟨hval p hp pt f hl hfp,
      fun hsf => strict_eq_json_structFree _ hsf d p.2 _⟩
  · intro q g hg hq
    exact (hpres q (fun p hp pt hl => hq p hp pt hl)).1 g hg

theorem buildStructFields_OuterE :
    buildStructFields (.struct_ "OuterE" .noRecv
      [("E", "", true, true, .struct_ "InnerE" .noRecv
         [("City", "city", false, true, .prim "string")]),
       ("Name", "name", false, true, .prim "string")]) =
      ⟨[("name", ⟨"name", [1]⟩), ("city", ⟨"city", [0, 0]⟩)], ["name", "city"], ""⟩ := by
  simp [buildStructFields, bfsLoop, processScan, processField, endLevel, stripPtr,
    List.enum, List.enumFrom, goFieldName, parseTag, tagName,
    GoField.fanon, GoField.fexported, GoField.ftag, GoField.fname, GoField.ftype,
    assocErase, List.lookup, keysOf]

theorem buildStructFields_OuterI :
    buildStructFields (.struct_ "Outer" .noRecv
      [("Inner", "inner", false, true, .struct_ "Inner" .noRecv
         [("Name", "name", false, true, .prim "string")])]) =
      ⟨[("inner", ⟨"inner", [0]⟩)], ["inner"], ""⟩ := by
  simp [buildStructFields, bfsLoop, processScan, processField, endLevel, stripPtr,
    List.enum, List.enumFrom, goFieldName, parseTag, tagName,
    GoField.fanon, GoField.fexported, GoField.ftag, GoField.fname, GoField.ftype,
    assocErase, List.lookup, keysOf]

/-- C1 (witness): a record with an embedded member (OuterE embeds InnerE,
resolving "name" at the top level and "city" through the embedding path
[0, 0]) decoded from {"name": "Ada", "city": "Rome"} with a fresh default
decoder: every hypothesis holds concretely and decoding succeeds. -/
theorem exact_match_decode_amended_witness :
    ∃ v2, (NewDecoder []).Unmarshal
        (.obj [("name", .rstr "Ada"), ("city", .rstr "Rome")])
        (.ptr (.struct_ "OuterE" .noRecv
          [("E", "", true, true, .struct_ "InnerE" .noRecv
             [("City", "city", false, true, .prim "string")]),
           ("Name", "name", false, true, .prim "string")]))
        (.vPtr (some (zeroValue (.struct_ "OuterE" .noRecv
          [("E", "", true, true, .struct_ "InnerE" .noRecv
             [("City", "city", false, true, .prim "string")]),
           ("Name", "name", false, true, .prim "string")])))) =
      (.vPtr (some v2), none) := by
  obtain ⟨v2, h1, h2, h3⟩ := exact_match_decode_amended (NewDecoder []) "OuterE" .noRecv
    [("E", "", true, true, .struct_ "InnerE" .noRecv
       [("City", "city", false, true, .prim "string")]),
     ("Name", "name", false, true, .prim "string")]
    [("name", .rstr "Ada"), ("city", .rstr "Rome")]
    (by simp [goWF, goFieldsWF])
    (by decide)
    (by rw [buildStructFields_OuterE])
    (by rw [buildStructFields_OuterE]; simp)
    (by
      intro p hp pt f hl hfp
      rw [buildStructFields_OuterE] at hl
      simp only [List.mem_cons, List.not_mem_nil, or_false] at hp
      rcases hp with hp | hp
      · subst hp
        simp [List.lookup] at hl
        subst hl
        simp [fieldAtPath] at hfp
        subst hfp
        show (unmarshalValue (NewDecoder []) (Raw.rstr "Ada") (.prim "string")
          (zeroValue (.prim "string"))).2 = none
        simp [unmarshalValue, NewDecoder, implementsUnmarshaler, stripPtr, allocDescend,
          rewrapPtr, zeroValue, decodePrimStep, primCompat, Raw.isNull]
      · subst hp
        simp [List.lookup] at hl
        subst hl
        simp only [fieldAtPath, List.get?, GoField.ftype] at hfp
        simp only [Option.some.injEq] at hfp
        subst hfp
        show (unmarshalValue (NewDecoder []) (Raw.rstr "Rome") (.prim "string")
          (zeroValue (.prim "string"))).2 = none
        simp [unmarshalValue, NewDecoder, implementsUnmarshaler, stripPtr, allocDescend,
          rewrapPtr, zeroValue, decodePrimStep, primCompat, Raw.isNull])
  exact ⟨v2, h1⟩

/-- C1 (counterexample): two instances refute the unqualified claim.
First, without the per-key success condition decoding can fail although
the keys match exactly: {"name": "J", "age": "x"} on the Person record
fails, because "age" holds a string and the field is an int.  Second,
even with every sub-value succeeding, a field whose type is itself a
record need not equal its natural non-strict decode: on a record with an
"inner" record field and unknown keys permitted, {"inner": {"NAME": "x"}}
decodes strictly to an untouched zero inner record (the nested mis-cased
key resolves to nothing and is skipped), while the natural decoder
matches "NAME" case-insensitively and writes the nested field. -/
theorem exact_match_decode_cx :
    ((buildStructFields (.struct_ "Person" .noRecv
        [("Name", "name", false, true, .prim "string"),
         ("Age", "age", false, true, .prim "int")])).conflict = "" ∧
     ([("name", Raw.rstr "J"), ("age", Raw.rstr "x")].map Prod.fst).Perm
       (buildStructFields (.struct_ "Person" .noRecv
        [("Name", "name", false, true, .prim "string"),
         ("Age", "age", false, true, .prim "int")])).allNames ∧
     ((NewDecoder []).Unmarshal (.obj [("name", .rstr "J"), ("age", .rstr "x")])
        (.ptr (.struct_ "Person" .noRecv
          [("Name", "name", false, true, .prim "string"),
           ("Age", "age", false, true, .prim "int")]))
        (.vPtr (some (zeroValue (.struct_ "Person" .noRecv
          [("Name", "name", false, true, .prim "string"),
           ("Age", "age", false, true, .prim "int")]))))).2 = some .jsonError) ∧
    ((buildStructFields (.struct_ "Outer" .noRecv
        [("Inner", "inner", false, true, .struct_ "Inner" .noRecv
           [("Name", "name", false, true, .prim "string")])])).conflict = "" ∧
     ([("inner", Raw.obj [("NAME", Raw.rstr "x")])].map Prod.fst).Perm
       (buildStructFields (.struct_ "Outer" .noRecv
        [("Inner", "inner", false, true, .struct_ "Inner" .noRecv
           [("Name", "name", false, true, .prim "string")])])).allNames ∧
     (NewDecoder [WithDisallowUnknownFields false]).Unmarshal
        (.obj [("inner", .obj [("NAME", .rstr "x")])])
        (.ptr (.struct_ "Outer" .noRecv
          [("Inner", "inner", false, true, .struct_ "Inner" .noRecv
             [("Name", "name", false, true, .prim "string")])]))
        (.vPtr (some (zeroValue (.struct_ "Outer" .noRecv
          [("Inner", "inner", false, true, .struct_ "Inner" .noRecv
             [("Name", "name", false, true, .prim "string")])])))) =
       (.vPtr (some (.vStruct [.vStruct [.vPrim none]])), none) ∧
     (jsonUnmarshal (.obj [("NAME", .rstr "x")])
        (.struct_ "Inner" .noRecv [("Name", "name", false, true, .prim "string")])
        (zeroValue (.struct_ "Inner" .noRecv
          [("Name", "name", false, true, .prim "string")]))).1 =
       .vStruct [.vPrim (some (.rstr "x"))] ∧
     (GoValue.vStruct [GoValue.vPrim none] ≠
       GoValue.vStruct [GoValue.vPrim (some (Raw.rstr "x"))])) := by
  constructor
  · refine ⟨by rw [buildStructFields_PersonT], by rw [buildStructFields_PersonT]; simp, ?_⟩
    simp [Unmarshal, Decoder.Unmarshal, NewDecoder, unmarshalValue, unmarshalStruct,
      unmarshalSlice, unmarshalMap, decodeFields, decodeElems, decodeMapEntries, setAtPath,
      getStructFields, buildStructFields, bfsLoop, processScan, processField, endLevel,
      stripPtr, implementsUnmarshaler, containsStruct, allocDescend, rewrapPtr, zeroValue,
      zeroFields, structSlotGet, structSlotSet, decodePrimStep, primCompat, Raw.isNull,
      goFieldName, parseTag, tagName, GoField.fanon, GoField.fexported, GoField.ftag,
      GoField.fname, GoField.ftype, List.enum, List.enumFrom, List.lookup, List.find?,
      keysOf, assocErase, findSuggestion]
  · refine ⟨by rw [buildStructFields_OuterI], by rw [buildStructFields_OuterI]; simp,
      ?_, ?_, by simp⟩
    · simp [Unmarshal, Decoder.Unmarshal, NewDecoder, WithDisallowUnknownFields,
        unmarshalValue, unmarshalStruct, unmarshalSlice, unmarshalMap, decodeFields,
        decodeElems, decodeMapEntries, setAtPath, getStructFields, buildStructFields,
        bfsLoop, processScan, processField, endLevel, stripPtr, implementsUnmarshaler,
        containsStruct, allocDescend, rewrapPtr, zeroValue, zeroFields, structSlotGet,
        structSlotSet, decodePrimStep, primCompat, Raw.isNull, goFieldName, parseTag,
        tagName, GoField.fanon, GoField.fexported, GoField.ftag, GoField.fname,
        GoField.ftype, List.enum, List.enumFrom, List.lookup, List.find?, keysOf,
        assocErase, findSuggestion]
    · simp [jsonUnmarshal, jsonFields, jsonFieldIndex, jsonMatchable, goToLower,
        insertAssoc, implementsUnmarshaler, zeroValue, zeroFields, structSlotGet,
        structSlotSet, decodePrimStep, primCompat, Raw.isNull, goFieldName, parseTag,
        tagName, GoField.fanon, GoField.fexported, GoField.ftag, GoField.fname,
        GoField.ftype, fieldTypeAt, List.findIdx?, List.lookup]

end StrictJson
